import Mathlib

/-!
# Library lending engine (`src/main.cpp`)

A shallow embedding of the lending state machine of `src/main.cpp`: the catalog of
`Book`s, the roster of `Member`s with their `Membership` ledgers, and the operations
`checkoutbook`, `returnbook`, `reservebook`, `getReservationCount` and `clearFees`,
together with the staff actions `addbook` and `removebook`, the query `searchCatalog` and
the record format of `Book::serialize` and `Book::deserialize`.

Modelling conventions.

* `std::string` is `String`; `availability` stays a string, as in the source, with the
  three labels `"available"`, `"borrowed"`, `"reserved"`.
* `chrono::system_clock::time_point` is an `Int` count of clock ticks (nanoseconds, the
  period of `system_clock` in libstdc++ and libc++); every call of
  `chrono::system_clock::now()` is an explicit argument of the operation that makes it.
* `int` values that come out of a narrowing conversion or an arithmetic operation are
  wrapped to 32 bits (`wrapInt32`).
* `double pendingFees` is an exact rational (`Rat`): rounding, infinities and NaN are
  not modelled. What is stated about the value of a sum or a difference of balances is
  stated for whole amounts up to 2^53 (`isWholeAmount`), where `double` arithmetic is
  exact.
* The engine prints a message instead of returning a value; `Outcome` has one
  constructor for each message, named after the error taxonomy of the specification.
* A `Member*` argument is the position of the member in `memberDatabase`.
* The standard library calls `std::string::find`, `getline`, `std::stoi` and the `int`
  output of a stream are functions on the characters of the strings (`findFrom`,
  `getline`, `stoi`, `showInt`).
-/

namespace Library

/-! ## Data model -/

/-- Catalog entry: `class Book`. -/
structure Book where
  isbn : String
  name : String
  creator : String
  company : String
  availability : String
  bookedBy : String
  publicationYear : Int
deriving DecidableEq

/-- The effect of `Book::setAvailability`. -/
def Book.setAvailability (b : Book) (status : String) : Book :=
  { b with availability := status }

/-- The effect of `Book::setBookedBy`. -/
def Book.setBookedBy (b : Book) (memberId : String) : Book :=
  { b with bookedBy := memberId }

/-- One active loan: `struct BorrowInfo`. -/
structure BorrowInfo where
  isbn : String
  checkoutDate : Int
deriving DecidableEq

/-- Loan ledger of one member: `class Membership`. -/
structure Membership where
  memberId : String
  checkedOutItems : List BorrowInfo
  pendingFees : Rat
deriving DecidableEq

/-- The three concrete subclasses of `Member`. -/
inductive MemberKind where
  | CollegeStudent
  | professor
  | LibraryStaff
deriving DecidableEq

/-- The `memberType` string each subclass constructor passes to `Member`. -/
def MemberKind.memberType : MemberKind → String
  | .CollegeStudent => "student"
  | .professor => "faculty"
  | .LibraryStaff => "librarian"

/-- Roster entry: `class Member` with its dynamic type. -/
structure Member where
  memberId : String
  fullName : String
  kind : MemberKind
  membership : Membership
deriving DecidableEq

/-- The getter `Member::getMemberType`. -/
def Member.getMemberType (m : Member) : String := m.kind.memberType

/-- Result of an engine call; each constructor stands for the message the call prints. -/
inductive Outcome where
  /-- Message "Item not found in catalog." -/
  | ItemNotFound
  /-- Message "Member not found. Please try again." (login guard of `main`). -/
  | MemberNotFound
  /-- Message "Item is already checked out." -/
  | AlreadyBorrowed
  /-- Message "Item is reserved by another member." -/
  | ReservedByOther
  /-- Message "You are not eligible to borrow at this time." -/
  | NotEligible
  /-- Message "Item is not checked out." of `returnbook`, or "Item is not eligible for
  reservation." of `reservebook`. -/
  | NotBorrowed
  /-- Message "You have not checked out this item." -/
  | NoSuchLoan
  /-- Message "Item is already reserved by someone else." -/
  | AlreadyReserved
  /-- Message "Item checked out successfully.", and the remaining reservation count when the
  reservation-fulfilled line is printed. -/
  | checkedOut (remainingReserved : Option Nat)
  /-- Message "Item returned successfully." with the fee computed (reported when positive). -/
  | returned (fee : Int)
  /-- Message "Item reserved successfully." -/
  | reserved
  /-- Message "Fees cleared successfully." -/
  | feesCleared
deriving DecidableEq

/-- An outcome is an error when it is one of the failure messages. -/
def Outcome.isErr : Outcome → Bool
  | .checkedOut _ => false
  | .returned _ => false
  | .reserved => false
  | .feesCleared => false
  | _ => true

/-! ## Machine arithmetic and the clock -/

/-- Two's complement wrap of an integer to the 32-bit `int`. -/
def wrapInt32 (x : Int) : Int := (x + 2147483648) % 4294967296 - 2147483648

/-- Clock ticks (nanoseconds) in one hour. -/
def ticksPerHour : Int := 3600000000000

/-- The expression
`int d = chrono::duration_cast<chrono::hours>(currentTime - checkoutDate).count() / 24`:
both divisions truncate toward zero and the result is narrowed to `int`. -/
def daysSinceCheckout (currentTime checkoutDate : Int) : Int :=
  wrapInt32 (Int.tdiv (Int.tdiv (currentTime - checkoutDate) ticksPerHour) 24)

/-! ## Membership -/

/-- The method `Membership::checkoutItem`, with the clock reading `now`. -/
def Membership.checkoutItem (ms : Membership) (isbn : String) (now : Int) : Membership :=
  { ms with checkedOutItems := ms.checkedOutItems ++ [⟨isbn, now⟩] }

/-- The method `Membership::returnItem`: erase the first loan of `isbn` and add `fee`,
or do nothing when there is no such loan. The sum is the exact one; it is the `double`
sum of the source whenever balance and sum are whole amounts (`isWholeAmount`). -/
def Membership.returnItem (ms : Membership) (isbn : String) (fee : Int) : Membership :=
  match ms.checkedOutItems.find? (fun info => decide (info.isbn = isbn)) with
  | some _ =>
    { ms with
      checkedOutItems := ms.checkedOutItems.eraseP (fun info => decide (info.isbn = isbn))
      pendingFees := ms.pendingFees + (fee : Rat) }
  | none => ms

/-- The method `Membership::clearFees`. The difference is the exact one; it is the
`double` difference of the source whenever balance and amount are whole amounts
(`isWholeAmount`). -/
def Membership.clearFees (ms : Membership) (amount : Rat) : Membership :=
  { ms with pendingFees := max 0 (ms.pendingFees - amount) }

/-! ## Eligibility policy -/

/-- The virtual method `isEligibleToBorrow` of the three subclasses; `currentTime` is the
clock reading taken by `professor::isEligibleToBorrow`. -/
def Member.isEligibleToBorrow (m : Member) (currentTime : Int) : Bool :=
  match m.kind with
  | .CollegeStudent =>
    decide (m.membership.checkedOutItems.length < 3) && decide (m.membership.pendingFees = 0)
  | .professor =>
    if m.membership.checkedOutItems.length ≥ 5 then false
    else !(m.membership.checkedOutItems.any
            (fun item => decide (daysSinceCheckout currentTime item.checkoutDate > 90)))
  | .LibraryStaff => false

/-- The virtual method `calculateLateFee` of the three subclasses. -/
def Member.calculateLateFee (m : Member) (daysLate : Int) : Int :=
  match m.kind with
  | .CollegeStudent => if daysLate > 0 then wrapInt32 (daysLate * 10) else 0
  | .professor => 0
  | .LibraryStaff => 0

/-! ## Catalog -/

/-- The lookup `LibrarySystem::findbook`: the first book with the given ISBN. -/
def findbook : List Book → String → Option Book
  | [], _ => none
  | item :: rest, isbn => if item.isbn = isbn then some item else findbook rest isbn

/-- A write through the pointer returned by `findbook`: `f` is applied in place to the
first book with the given ISBN. -/
def modifyBook (isbn : String) (f : Book → Book) : List Book → List Book
  | [] => []
  | item :: rest =>
    if item.isbn = isbn then f item :: rest else item :: modifyBook isbn f rest

/-- The count `LibrarySystem::getReservationCount`. -/
def getReservationCount (catalog : List Book) (memberId : String) : Nat :=
  catalog.countP (fun item => decide (item.bookedBy = memberId))

/-! ## Lending engine -/

/-- The write `checkoutbook` makes to the book it found: `setAvailability("borrowed")`,
`setBookedBy("")`. -/
def markBorrowed (b : Book) : Book := (b.setAvailability "borrowed").setBookedBy ""

/-- The write `returnbook` makes to the book it found:
`setAvailability(getBookedBy().empty() ? "available" : "reserved")`. -/
def markReturned (b : Book) : Book :=
  b.setAvailability (if b.bookedBy = "" then "available" else "reserved")

/-- The method `LibrarySystem::checkoutbook`. `tElig` is the clock reading of the
eligibility check, `now` the one of `Membership::checkoutItem`. -/
def checkoutbook (catalog : List Book) (member : Member) (isbn : String)
    (tElig now : Int) : List Book × Member × Outcome :=
  match findbook catalog isbn with
  | none => (catalog, member, .ItemNotFound)
  | some item =>
    if item.availability = "borrowed" then (catalog, member, .AlreadyBorrowed)
    else if item.availability = "reserved" ∧ item.bookedBy ≠ member.memberId then
      (catalog, member, .ReservedByOther)
    else if member.isEligibleToBorrow tElig = false then (catalog, member, .NotEligible)
    else
      let wasReservedByMember : Bool :=
        decide (item.availability = "reserved" ∧ item.bookedBy = member.memberId)
      let member' := { member with membership := member.membership.checkoutItem isbn now }
      let catalog' := modifyBook isbn markBorrowed catalog
      (catalog', member',
        .checkedOut
          (if wasReservedByMember then some (getReservationCount catalog' member.memberId)
           else none))

/-- The fee computation inside `LibrarySystem::returnbook` (`daysSinceCheckout`,
`loanPeriod`, `daysLate`, `fee`) for a loan checked out at `checkoutDate`. -/
def returnFee (member : Member) (currentTime checkoutDate : Int) : Int :=
  let days := daysSinceCheckout currentTime checkoutDate
  let loanPeriod : Int := if member.getMemberType = "student" then 15 else 30
  let daysLate := max 0 (wrapInt32 (days - loanPeriod))
  member.calculateLateFee daysLate

/-- The method `LibrarySystem::returnbook`, with the clock reading `currentTime`. -/
def returnbook (catalog : List Book) (member : Member) (isbn : String)
    (currentTime : Int) : List Book × Member × Outcome :=
  match findbook catalog isbn with
  | none => (catalog, member, .ItemNotFound)
  | some item =>
    if item.availability ≠ "borrowed" then (catalog, member, .NotBorrowed)
    else
      match member.membership.checkedOutItems.find? (fun info => decide (info.isbn = isbn)) with
      | none => (catalog, member, .NoSuchLoan)
      | some it =>
        let fee := returnFee member currentTime it.checkoutDate
        let member' := { member with membership := member.membership.returnItem isbn fee }
        (modifyBook isbn markReturned catalog, member', .returned fee)

/-- The method `LibrarySystem::reservebook`. -/
def reservebook (catalog : List Book) (member : Member) (isbn : String) :
    List Book × Member × Outcome :=
  match findbook catalog isbn with
  | none => (catalog, member, .ItemNotFound)
  | some item =>
    if item.availability ≠ "borrowed" then (catalog, member, .NotBorrowed)
    else if item.bookedBy ≠ "" then (catalog, member, .AlreadyReserved)
    else
      (modifyBook isbn (fun b => b.setBookedBy member.memberId) catalog, member, .reserved)

/-! ## The system and its calls -/

/-- The two repositories of `class LibrarySystem`. -/
structure LibrarySystem where
  catalog : List Book
  memberDatabase : List Member
deriving DecidableEq

/-- One call of the engine API by the member at position `member` of the roster. -/
inductive Action where
  | checkout (member : Nat) (isbn : String) (tElig now : Int)
  | returnItem (member : Nat) (isbn : String) (currentTime : Int)
  | reserve (member : Nat) (isbn : String)
  | payFees (member : Nat) (amount : Rat)
deriving DecidableEq

/-- The roster position an action is made from. -/
def Action.member : Action → Nat
  | .checkout m _ _ _ => m
  | .returnItem m _ _ => m
  | .reserve m _ => m
  | .payFees m _ => m

/-- Run one lending call on the catalog and the calling member. -/
def Action.run (catalog : List Book) (m : Member) : Action → List Book × Member × Outcome
  | .checkout _ isbn tElig now => checkoutbook catalog m isbn tElig now
  | .returnItem _ isbn currentTime => returnbook catalog m isbn currentTime
  | .reserve _ isbn => reservebook catalog m isbn
  | .payFees _ amount =>
    (catalog, { m with membership := m.membership.clearFees amount }, .feesCleared)

/-- One call on the whole system: the member is fetched from the roster, the call runs,
and the member is written back in place. A position outside the roster makes no call. -/
def step (s : LibrarySystem) (a : Action) : LibrarySystem × Outcome :=
  match s.memberDatabase[a.member]? with
  | none => (s, .MemberNotFound)
  | some m =>
    let r := a.run s.catalog m
    ({ catalog := r.1, memberDatabase := s.memberDatabase.set a.member r.2.1 }, r.2.2)

/-- The state after a sequence of calls. -/
def runAll (s : LibrarySystem) : List Action → LibrarySystem
  | [] => s
  | a :: rest => runAll (step s a).1 rest

/-! ## State predicates -/

/-- The holderRef invariant on one book. -/
def Book.holderOk (b : Book) : Prop :=
  (b.availability = "reserved" → b.bookedBy ≠ "") ∧
  (b.availability = "available" → b.bookedBy = "")

instance (b : Book) : Decidable b.holderOk := by
  unfold Book.holderOk; infer_instance

/-- The holderRef invariant on a catalog. -/
def holderInv (catalog : List Book) : Prop := ∀ b ∈ catalog, b.holderOk

instance (catalog : List Book) : Decidable (holderInv catalog) := by
  unfold holderInv; infer_instance

/-- Number of active loans of `isbn` in one ledger. -/
def loanCount (isbn : String) (m : Member) : Nat :=
  m.membership.checkedOutItems.countP (fun info => decide (info.isbn = isbn))

/-- Number of active loans of `isbn` over all ledgers of the roster. -/
def totalLoans (isbn : String) (members : List Member) : Nat :=
  (members.map (loanCount isbn)).sum

/-- Initial states: every item available, every ledger empty. -/
def initial (s : LibrarySystem) : Prop :=
  (∀ b ∈ s.catalog, b.availability = "available") ∧
  (∀ m ∈ s.memberDatabase, m.membership.checkedOutItems = [])

instance (s : LibrarySystem) : Decidable (initial s) := by
  unfold initial; infer_instance

/-- The lending invariant: every ISBN is on loan at most once over the whole roster, and
an ISBN that is on loan is found borrowed in the catalog. -/
def loanInv (s : LibrarySystem) : Prop :=
  ∀ isbn, totalLoans isbn s.memberDatabase ≤ 1 ∧
    (1 ≤ totalLoans isbn s.memberDatabase →
      ∃ item, findbook s.catalog isbn = some item ∧ item.availability = "borrowed")

/-- A book found borrowed under `isbn` in `catalog` is found borrowed in `catalog'`. -/
def keepsBorrowed (catalog catalog' : List Book) (isbn : String) : Prop :=
  ∀ item, findbook catalog isbn = some item → item.availability = "borrowed" →
    ∃ item', findbook catalog' isbn = some item' ∧ item'.availability = "borrowed"

/-- The action is a checkout of `isbn`. -/
def Action.isCheckoutOf (isbn : String) : Action → Bool
  | .checkout _ i _ _ => decide (i = isbn)
  | _ => false

/-- No call of the sequence, run from `s`, is a successful checkout of `isbn`. -/
def noCheckoutYet (isbn : String) (s : LibrarySystem) : List Action → Prop
  | [] => True
  | a :: rest =>
    ¬ (a.isCheckoutOf isbn = true ∧ (step s a).2.isErr = false) ∧
      noCheckoutYet isbn (step s a).1 rest

instance (isbn : String) (s : LibrarySystem) (calls : List Action) :
    Decidable (noCheckoutYet isbn s calls) := by
  induction calls generalizing s with
  | nil => unfold noCheckoutYet; infer_instance
  | cons a rest ih =>
    unfold noCheckoutYet
    have := ih (step s a).1
    infer_instance

/-- The book found under `isbn` is held for `holder`: it carries that holder and is
borrowed or reserved. -/
def heldFor (isbn holder : String) (catalog : List Book) : Prop :=
  ∃ item, findbook catalog isbn = some item ∧ item.bookedBy = holder ∧
    (item.availability = "borrowed" ∨ item.availability = "reserved")

/-- Case 5 ("Pay fees") of the member menu in `main`: the whole balance is read with
`getPendingFees` and passed to `clearFees`. -/
def payAllFees (m : Member) : Member :=
  { m with membership := m.membership.clearFees m.membership.pendingFees }

/-- A clock value that fits the 64-bit tick count of `system_clock::time_point`. -/
def isTimePoint (t : Int) : Prop :=
  -9223372036854775808 ≤ t ∧ t < 9223372036854775808

instance (t : Int) : Decidable (isTimePoint t) := by
  unfold isTimePoint; infer_instance

/-- The clock readings an action takes. -/
def Action.clocks : Action → List Int
  | .checkout _ _ tElig now => [tElig, now]
  | .returnItem _ _ currentTime => [currentTime]
  | .reserve _ _ => []
  | .payFees _ _ => []

/-- The action is a fee settlement. -/
def Action.isPayFees : Action → Bool
  | .payFees _ _ => true
  | _ => false

/-- The loan period of `returnbook`:
`(member->getMemberType() == "student") ? 15 : 30`. -/
def loanPeriod (m : Member) : Int := if m.getMemberType = "student" then 15 else 30

/-- Number of ledgers of the roster that contain an active loan of `isbn`. -/
def ledgerHolders (isbn : String) (members : List Member) : Nat :=
  members.countP
    (fun m => m.membership.checkedOutItems.any (fun info => decide (info.isbn = isbn)))

/-- A book found borrowed under `isbn` in `catalog'` was found borrowed in `catalog`. -/
def reflectsBorrowed (catalog catalog' : List Book) (isbn : String) : Prop :=
  ∀ item', findbook catalog' isbn = some item' → item'.availability = "borrowed" →
    ∃ item, findbook catalog isbn = some item ∧ item.availability = "borrowed"

/-- Every book found borrowed is on loan in some ledger. -/
def borrowedInv (s : LibrarySystem) : Prop :=
  ∀ isbn item, findbook s.catalog isbn = some item → item.availability = "borrowed" →
    1 ≤ totalLoans isbn s.memberDatabase

/-- The loan caps: a student holds at most 3 loans, a professor at most 5. -/
def withinCap (m : Member) : Prop :=
  (m.kind = .CollegeStudent → m.membership.checkedOutItems.length ≤ 3) ∧
  (m.kind = .professor → m.membership.checkedOutItems.length ≤ 5)

instance (m : Member) : Decidable (withinCap m) := by
  unfold withinCap; infer_instance

/-- The item id a lending call is made on (`payFees` names no item). -/
def Action.isbn? : Action → Option String
  | .checkout _ isbn _ _ => some isbn
  | .returnItem _ isbn _ => some isbn
  | .reserve _ isbn => some isbn
  | .payFees _ _ => none

/-- Position `k` holds the first catalog item whose ISBN is `isbn`. -/
def isFirstWithIsbn (catalog : List Book) (isbn : String) (k : Nat) : Prop :=
  catalog[k]?.map Book.isbn = some isbn ∧
  ∀ k', k' < k → catalog[k']?.map Book.isbn ≠ some isbn

instance (catalog : List Book) (isbn : String) (k : Nat) :
    Decidable (isFirstWithIsbn catalog isbn k) := by
  unfold isFirstWithIsbn; infer_instance

/-- The descriptive fields of a book (`isbn`, `name`, `creator`, `company`,
`publicationYear`) are the same in both. -/
def sameDescription (b b' : Book) : Prop :=
  b'.isbn = b.isbn ∧ b'.name = b.name ∧ b'.creator = b.creator ∧ b'.company = b.company ∧
    b'.publicationYear = b.publicationYear

/-! ## Staff catalog actions -/

/-- The method `LibrarySystem::addbook`: `catalog.push_back(item)`. -/
def addbook (catalog : List Book) (item : Book) : List Book := catalog ++ [item]

/-- The method `LibrarySystem::removebook`: every book with the ISBN is erased. -/
def removebook (catalog : List Book) (isbn : String) : List Book :=
  catalog.filter (fun lit => !decide (lit.isbn = isbn))

/-- A call on the system: a lending call of a member, or a staff catalog action. -/
inductive SystemAction where
  | lending (a : Action)
  | addItem (item : Book)
  | removeItem (isbn : String)
deriving DecidableEq

/-- One call on the system, staff actions included. -/
def stepSystem (s : LibrarySystem) : SystemAction → LibrarySystem
  | .lending a => (step s a).1
  | .addItem item => { s with catalog := addbook s.catalog item }
  | .removeItem isbn => { s with catalog := removebook s.catalog isbn }

/-- The state after a sequence of calls, staff actions included. -/
def runSystem (s : LibrarySystem) : List SystemAction → LibrarySystem
  | [] => s
  | a :: rest => runSystem (stepSystem s a) rest

/-- No book is found under `isbn`, or the book found is borrowed. -/
def absentOrBorrowed (catalog : List Book) (isbn : String) : Prop :=
  ∀ item, findbook catalog isbn = some item → item.availability = "borrowed"

/-- The lending invariant in the presence of staff actions: every ISBN is on loan at most
once over the whole roster, and an ISBN that is on loan is either gone from the catalog or
found borrowed there. -/
def loanInvStaff (s : LibrarySystem) : Prop :=
  ∀ isbn, totalLoans isbn s.memberDatabase ≤ 1 ∧
    (1 ≤ totalLoans isbn s.memberDatabase → absentOrBorrowed s.catalog isbn)

/-- Along the run from `s`, `addItem` only adds a book whose ISBN is referenced by no
active loan at that time or is already present in the catalog. -/
def addsUnlent (s : LibrarySystem) : List SystemAction → Prop
  | [] => True
  | .addItem item :: rest =>
    (totalLoans item.isbn s.memberDatabase = 0 ∨
        (findbook s.catalog item.isbn).isSome = true) ∧
      addsUnlent (stepSystem s (.addItem item)) rest
  | a :: rest => addsUnlent (stepSystem s a) rest

instance (s : LibrarySystem) (calls : List SystemAction) :
    Decidable (addsUnlent s calls) := by
  induction calls generalizing s with
  | nil => unfold addsUnlent; infer_instance
  | cons a rest ih =>
    cases a with
    | lending a =>
      unfold addsUnlent
      exact ih (stepSystem s (.lending a))
    | addItem item =>
      unfold addsUnlent
      have := ih (stepSystem s (.addItem item))
      infer_instance
    | removeItem isbn =>
      unfold addsUnlent
      exact ih (stepSystem s (.removeItem isbn))

/-! ## Catalog search -/

/-- The search `std::string::find(needle)` from position 0, on the characters of the
strings: the first position at which `needle` occurs, `none` standing for `npos`. -/
def findFrom (needle : List Char) : List Char → Nat → Option Nat
  | [], pos => if needle = [] then some pos else none
  | c :: rest, pos =>
    if needle.isPrefixOf (c :: rest) then some pos else findFrom needle rest (pos + 1)

/-- The call `s.find(query)` of `std::string`. -/
def stdFind (s query : String) : Option Nat := findFrom query.data s.data 0

/-- The line `searchCatalog` prints for a matching item (without the final newline). -/
def searchLine (item : Book) : String :=
  item.isbn ++ " - " ++ item.name ++ " by " ++ item.creator ++ " (" ++ item.availability ++ ")"

/-- The test of the loop of `searchCatalog`:
`getName().find(query) != npos || getCreator().find(query) != npos`. -/
def searchMatches (query : String) (item : Book) : Bool :=
  (stdFind item.name query).isSome || (stdFind item.creator query).isSome

/-- The method `LibrarySystem::searchCatalog`: the state it leaves and the lines it
prints. The loop carries the lines printed so far and the flag `itemFound`. -/
def searchCatalog (s : LibrarySystem) (query : String) : LibrarySystem × List String :=
  if s.catalog = [] then (s, ["Catalog is empty."])
  else
    let r := s.catalog.foldl
      (fun (acc : List String × Bool) item =>
        if searchMatches query item then (acc.1 ++ [searchLine item], true) else acc)
      ([], false)
    if r.2 = false then (s, r.1 ++ ["No matching items found."]) else (s, r.1)

/-- The items the specification says a search lists: those for which the query is a
contiguous substring of the title or of the creator, in catalog order. -/
def searchSpec (catalog : List Book) (query : String) : List Book :=
  catalog.filter
    (fun item => decide (query.data <:+: item.name.data ∨ query.data <:+: item.creator.data))

/-! ## Persistence of catalog records -/

/-- The text `ostream << int` writes: the decimal digits, after a minus sign for a
negative value. -/
def showInt (i : Int) : List Char :=
  if i < 0 then '-' :: Nat.toDigits 10 i.natAbs else Nat.toDigits 10 i.natAbs

/-- The method `Book::serialize`. -/
def Book.serialize (b : Book) : String :=
  b.isbn ++ "," ++ b.name ++ "," ++ b.creator ++ "," ++ b.company ++ ","
    ++ String.mk (showInt b.publicationYear) ++ "," ++ b.availability ++ "," ++ b.bookedBy

/-- The call `getline(stream, field, delim)` on the unread characters of the stream: the
field read and the characters left; the delimiter is consumed, and an exhausted stream
gives the empty field. -/
def getline (delim : Char) : List Char → List Char × List Char
  | [] => ([], [])
  | c :: rest =>
    if c = delim then ([], rest)
    else ((c :: (getline delim rest).1), (getline delim rest).2)

/-- The test `isspace` of the C locale. -/
def isspace (c : Char) : Bool :=
  c = ' ' || c = '\t' || c = '\n' || c = '\x0b' || c = '\x0c' || c = '\r'

/-- The value of a run of decimal digits, most significant first. -/
def digitsValue (cs : List Char) : Nat :=
  cs.foldl (fun acc c => 10 * acc + (c.toNat - 48)) 0

/-- The call `std::stoi(str)`: leading white space is skipped, an optional sign is read,
then the longest run of decimal digits; `none` stands for the exception thrown when there
is no digit or when the value is not an `int`. -/
def stoi (str : List Char) : Option Int :=
  let s1 := str.dropWhile isspace
  let signed : Bool × List Char :=
    match s1 with
    | [] => (false, s1)
    | c :: t => if c = '-' then (true, t) else if c = '+' then (false, t) else (false, s1)
  let ds := signed.2.takeWhile Char.isDigit
  if ds = [] then none
  else
    let v : Int := if signed.1 then -(digitsValue ds : Int) else (digitsValue ds : Int)
    if -2147483648 ≤ v ∧ v ≤ 2147483647 then some v else none

/-- The factory `Book::deserialize`; `none` when `stoi` throws. -/
def Book.deserialize (data : String) : Option Book :=
  let f1 := getline ',' data.data
  let f2 := getline ',' f1.2
  let f3 := getline ',' f2.2
  let f4 := getline ',' f3.2
  let f5 := getline ',' f4.2
  let f6 := getline ',' f5.2
  let f7 := getline '\n' f6.2
  match stoi f5.1 with
  | none => none
  | some year_val =>
    some
      { isbn := String.mk f1.1, name := String.mk f2.1, creator := String.mk f3.1,
        company := String.mk f4.1, availability := String.mk f6.1,
        bookedBy := String.mk f7.1, publicationYear := year_val }

/-! ## Exact balances -/

/-- A balance that is a whole number between 0 and 2^53. A `double` holds every such value
exactly, and a sum or difference of two such values that is again such a value is computed
by `double` arithmetic without rounding; on these balances the rational `pendingFees` of
this file and the `double` of the source agree. -/
def isWholeAmount (x : Rat) : Prop :=
  x.den = 1 ∧ 0 ≤ x.num ∧ x.num ≤ 9007199254740992

instance (x : Rat) : Decidable (isWholeAmount x) := by
  unfold isWholeAmount; infer_instance

/-! ## Sample data -/

/-- The first book of the default catalog. -/
def lit001 : Book :=
  ⟨"LIT001", "Advanced Programming", "Jane Doe", "TechPress", "available", "", 2022⟩

/-- The second book of the default catalog. -/
def lit002 : Book :=
  ⟨"LIT002", "Data Structures", "John Smith", "CodeBooks", "available", "", 2020⟩

/-- A student of the default roster, with an empty ledger. -/
def stu1 : Member := ⟨"STU1", "Student One", .CollegeStudent, ⟨"STU1", [], 0⟩⟩

/-- Another student of the default roster. -/
def stu2 : Member := ⟨"STU2", "Student Two", .CollegeStudent, ⟨"STU2", [], 0⟩⟩

/-- A third student of the default roster. -/
def stu3 : Member := ⟨"STU3", "Student Three", .CollegeStudent, ⟨"STU3", [], 0⟩⟩

/-- A small system in its initial state. -/
def sys0 : LibrarySystem := ⟨[lit001, lit002], [stu1, stu2, stu3]⟩

/-- The system after STU1 has checked out LIT001 and STU2 has reserved it. -/
def sysReserved : LibrarySystem :=
  (step (step sys0 (.checkout 0 "LIT001" 0 0)).1 (.reserve 1 "LIT001")).1

/-- The catalog after STU1 has checked out LIT001. -/
def catBorrowed : List Book := (checkoutbook [lit001, lit002] stu1 "LIT001" 0 0).1

/-- STU1 after the checkout of LIT001 at clock reading 0. -/
def stu1Holding : Member := (checkoutbook [lit001, lit002] stu1 "LIT001" 0 0).2.1

/-- A professor of the default roster, with an empty ledger. -/
def prof1 : Member := ⟨"PROF1", "Professor One", .professor, ⟨"PROF1", [], 0⟩⟩

/-- The librarian of the default roster. -/
def staff1 : Member := ⟨"STAFF1", "Staff One", .LibraryStaff, ⟨"STAFF1", [], 0⟩⟩

/-- A professor holding LIT002 since clock reading 0. -/
def prof1Holding : Member :=
  ⟨"PROF1", "Professor One", .professor, ⟨"PROF1", [⟨"LIT002", 0⟩], 0⟩⟩

/-- A student who owes a fee of 50. -/
def stu1Owing : Member := ⟨"STU1", "Student One", .CollegeStudent, ⟨"STU1", [], 50⟩⟩

/-- The system after STU1 has borrowed LIT001, STU2 has reserved it and STU1 has returned
it: LIT001 is reserved for STU2. -/
def sysAwaiting : LibrarySystem := runAll sysReserved [.returnItem 0 "LIT001" 2]

/-- STU1 holding both books of the default catalog. -/
def stu1TwoLoans : Member :=
  ⟨"STU1", "Student One", .CollegeStudent, ⟨"STU1", [⟨"LIT001", 0⟩, ⟨"LIT002", 1⟩], 0⟩⟩

/-! ## Catalog lemmas -/

theorem findbook_eq_none_iff (catalog : List Book) (isbn : String) :
    findbook catalog isbn = none ↔ ∀ b ∈ catalog, b.isbn ≠ isbn := by
  induction catalog with
  | nil => simp [findbook]
  | cons item rest ih =>
    by_cases h : item.isbn = isbn
    · simp [findbook, h]
    · simp [findbook, h, ih]

theorem findbook_some_mem {catalog : List Book} {isbn : String} {item : Book}
    (h : findbook catalog isbn = some item) : item ∈ catalog ∧ item.isbn = isbn := by
  induction catalog with
  | nil => simp [findbook] at h
  | cons x rest ih =>
    by_cases hx : x.isbn = isbn
    · simp [findbook, hx] at h
      subst h
      exact ⟨List.mem_cons_self _ _, hx⟩
    · simp [findbook, hx] at h
      exact ⟨List.mem_cons_of_mem _ (ih h).1, (ih h).2⟩

theorem findbook_modifyBook_same {catalog : List Book} {isbn : String} {item : Book}
    (f : Book → Book) (hf : ∀ b, (f b).isbn = b.isbn)
    (h : findbook catalog isbn = some item) :
    findbook (modifyBook isbn f catalog) isbn = some (f item) := by
  induction catalog with
  | nil => simp [findbook] at h
  | cons x rest ih =>
    by_cases hx : x.isbn = isbn
    · simp [findbook, hx] at h
      subst h
      simp [modifyBook, findbook, hx, hf]
    · simp [findbook, hx] at h
      simp [modifyBook, findbook, hx, ih h]

theorem findbook_modifyBook_other {isbn other : String} (catalog : List Book)
    (f : Book → Book) (hf : ∀ b, (f b).isbn = b.isbn) (hne : other ≠ isbn) :
    findbook (modifyBook isbn f catalog) other = findbook catalog other := by
  induction catalog with
  | nil => simp [modifyBook]
  | cons x rest ih =>
    by_cases hx : x.isbn = isbn
    · have hio : ¬ isbn = other := fun h => hne h.symm
      simp [modifyBook, findbook, hx, hf, hio]
    · simp [modifyBook, findbook, hx, ih]

theorem mem_modifyBook {isbn : String} {f : Book → Book} {catalog : List Book} {b : Book}
    (h : b ∈ modifyBook isbn f catalog) :
    b ∈ catalog ∨ ∃ item, findbook catalog isbn = some item ∧ b = f item := by
  induction catalog with
  | nil => simp [modifyBook] at h
  | cons x rest ih =>
    by_cases hx : x.isbn = isbn
    · simp [modifyBook, hx] at h
      rcases h with h | h
      · right; exact ⟨x, by simp [findbook, hx], h⟩
      · left; exact List.mem_cons_of_mem _ h
    · simp [modifyBook, hx] at h
      rcases h with h | h
      · left; simp [h]
      · rcases ih h with h1 | ⟨item, h1, h2⟩
        · left; exact List.mem_cons_of_mem _ h1
        · right; exact ⟨item, by simp [findbook, hx, h1], h2⟩

/-! ## Shape of the engine calls -/

theorem checkoutbook_borrowed {catalog : List Book} {isbn : String} {item : Book}
    (member : Member) (tElig now : Int)
    (hf : findbook catalog isbn = some item) (hb : item.availability = "borrowed") :
    checkoutbook catalog member isbn tElig now = (catalog, member, .AlreadyBorrowed) := by
  simp [checkoutbook, hf, hb]

theorem checkoutbook_success {catalog : List Book} {member : Member} {isbn : String}
    {tElig now : Int}
    (h : (checkoutbook catalog member isbn tElig now).2.2.isErr = false) :
    ∃ item, findbook catalog isbn = some item ∧ item.availability ≠ "borrowed" ∧
      ¬ (item.availability = "reserved" ∧ item.bookedBy ≠ member.memberId) ∧
      member.isEligibleToBorrow tElig = true ∧
      (checkoutbook catalog member isbn tElig now).1 = modifyBook isbn markBorrowed catalog ∧
      (checkoutbook catalog member isbn tElig now).2.1 =
        { member with membership := member.membership.checkoutItem isbn now } := by
  cases hf : findbook catalog isbn with
  | none => simp [checkoutbook, hf, Outcome.isErr] at h
  | some item =>
    by_cases h1 : item.availability = "borrowed"
    · simp [checkoutbook, hf, h1, Outcome.isErr] at h
    · by_cases h2 : item.availability = "reserved" ∧ item.bookedBy ≠ member.memberId
      · simp [checkoutbook, hf, h1, h2, Outcome.isErr] at h
      · by_cases h3 : member.isEligibleToBorrow tElig = false
        · simp [checkoutbook, hf, h1, h2, h3, Outcome.isErr] at h
        · refine ⟨item, rfl, h1, h2, by simpa using h3, ?_, ?_⟩
          · simp only [checkoutbook, hf, if_neg h1, if_neg h2, if_neg h3]
          · simp only [checkoutbook, hf, if_neg h1, if_neg h2, if_neg h3]

theorem checkoutbook_failure {catalog : List Book} {member : Member} {isbn : String}
    {tElig now : Int}
    (h : (checkoutbook catalog member isbn tElig now).2.2.isErr = true) :
    (checkoutbook catalog member isbn tElig now).1 = catalog ∧
    (checkoutbook catalog member isbn tElig now).2.1 = member := by
  cases hf : findbook catalog isbn with
  | none => simp [checkoutbook, hf]
  | some item =>
    by_cases h1 : item.availability = "borrowed"
    · simp [checkoutbook, hf, h1]
    · by_cases h2 : item.availability = "reserved" ∧ item.bookedBy ≠ member.memberId
      · simp [checkoutbook, hf, h1, h2]
      · by_cases h3 : member.isEligibleToBorrow tElig = false
        · simp only [checkoutbook, hf, if_neg h1, if_neg h2, if_pos h3, and_self]
        · simp only [checkoutbook, hf, if_neg h1, if_neg h2, if_neg h3, Outcome.isErr] at h
          exact absurd h (by decide)

theorem returnbook_success {catalog : List Book} {member : Member} {isbn : String}
    {currentTime : Int}
    (h : (returnbook catalog member isbn currentTime).2.2.isErr = false) :
    ∃ item it, findbook catalog isbn = some item ∧ item.availability = "borrowed" ∧
      member.membership.checkedOutItems.find? (fun info => decide (info.isbn = isbn)) = some it ∧
      returnbook catalog member isbn currentTime =
        (modifyBook isbn markReturned catalog,
         { member with membership :=
             member.membership.returnItem isbn (returnFee member currentTime it.checkoutDate) },
         .returned (returnFee member currentTime it.checkoutDate)) := by
  cases hf : findbook catalog isbn with
  | none => simp [returnbook, hf, Outcome.isErr] at h
  | some item =>
    by_cases h1 : item.availability = "borrowed"
    · cases hl : member.membership.checkedOutItems.find? (fun info => decide (info.isbn = isbn)) with
      | none => simp [returnbook, hf, h1, hl, Outcome.isErr] at h
      | some it =>
        exact ⟨item, it, rfl, h1, rfl, by simp [returnbook, hf, h1, hl]⟩
    · simp [returnbook, hf, h1, Outcome.isErr] at h

theorem returnbook_failure {catalog : List Book} {member : Member} {isbn : String}
    {currentTime : Int}
    (h : (returnbook catalog member isbn currentTime).2.2.isErr = true) :
    (returnbook catalog member isbn currentTime).1 = catalog ∧
    (returnbook catalog member isbn currentTime).2.1 = member := by
  cases hf : findbook catalog isbn with
  | none => simp [returnbook, hf]
  | some item =>
    by_cases h1 : item.availability = "borrowed"
    · cases hl : member.membership.checkedOutItems.find? (fun info => decide (info.isbn = isbn)) with
      | none => simp [returnbook, hf, h1, hl]
      | some it => simp [returnbook, hf, h1, hl, Outcome.isErr] at h
    · simp [returnbook, hf, h1]

theorem reservebook_success {catalog : List Book} {member : Member} {isbn : String}
    (h : (reservebook catalog member isbn).2.2.isErr = false) :
    ∃ item, findbook catalog isbn = some item ∧ item.availability = "borrowed" ∧
      item.bookedBy = "" ∧
      (reservebook catalog member isbn).1 =
        modifyBook isbn (fun b => b.setBookedBy member.memberId) catalog ∧
      (reservebook catalog member isbn).2.1 = member := by
  cases hf : findbook catalog isbn with
  | none => simp [reservebook, hf, Outcome.isErr] at h
  | some item =>
    by_cases h1 : item.availability = "borrowed"
    · by_cases h2 : item.bookedBy = ""
      · exact ⟨item, rfl, h1, h2, by simp [reservebook, hf, h1, h2],
          by simp [reservebook, hf, h1, h2]⟩
      · simp [reservebook, hf, h1, h2, Outcome.isErr] at h
    · simp [reservebook, hf, h1, Outcome.isErr] at h

theorem reservebook_failure {catalog : List Book} {member : Member} {isbn : String}
    (h : (reservebook catalog member isbn).2.2.isErr = true) :
    (reservebook catalog member isbn).1 = catalog ∧
    (reservebook catalog member isbn).2.1 = member := by
  cases hf : findbook catalog isbn with
  | none => simp [reservebook, hf]
  | some item =>
    by_cases h1 : item.availability = "borrowed"
    · by_cases h2 : item.bookedBy = ""
      · simp [reservebook, hf, h1, h2, Outcome.isErr] at h
      · simp [reservebook, hf, h1, h2]
    · simp [reservebook, hf, h1]

theorem findbook_of_exists {catalog : List Book} {isbn : String}
    (h : ∃ b ∈ catalog, b.isbn = isbn) : ∃ item, findbook catalog isbn = some item := by
  obtain ⟨b, hb, hbi⟩ := h
  cases hf : findbook catalog isbn with
  | some item => exact ⟨item, rfl⟩
  | none => exact absurd hbi ((findbook_eq_none_iff catalog isbn).1 hf b hb)

theorem find_loan_eq_none_iff (loans : List BorrowInfo) (isbn : String) :
    loans.find? (fun info => decide (info.isbn = isbn)) = none ↔
      ∀ info ∈ loans, info.isbn ≠ isbn := by
  simp [List.find?_eq_none]

/-! ## Fee arithmetic -/

theorem daysSinceCheckout_eq {currentTime checkoutDate : Int}
    (hle : checkoutDate ≤ currentTime)
    (hrange : currentTime - checkoutDate < 9223372036854775808) :
    daysSinceCheckout currentTime checkoutDate
      = (currentTime - checkoutDate) / ticksPerHour / 24 ∧
    0 ≤ (currentTime - checkoutDate) / ticksPerHour / 24 ∧
    (currentTime - checkoutDate) / ticksPerHour / 24 < 106752 := by
  have h0 : 0 ≤ currentTime - checkoutDate := by omega
  have h1 : (0 : Int) ≤ ticksPerHour := by decide
  have h2 : 0 ≤ (currentTime - checkoutDate) / ticksPerHour := Int.ediv_nonneg h0 h1
  unfold daysSinceCheckout
  rw [Int.tdiv_eq_ediv h0 h1, Int.tdiv_eq_ediv h2 (by decide)]
  unfold wrapInt32 ticksPerHour at *
  omega

theorem returnFee_student {member : Member} (hk : member.kind = .CollegeStudent)
    {currentTime checkoutDate : Int} (hle : checkoutDate ≤ currentTime)
    (hrange : currentTime - checkoutDate < 9223372036854775808) :
    returnFee member currentTime checkoutDate
      = 10 * max 0 ((currentTime - checkoutDate) / ticksPerHour / 24 - 15) := by
  obtain ⟨hd, hlo, hhi⟩ := daysSinceCheckout_eq hle hrange
  simp only [returnFee, Member.getMemberType, hk, MemberKind.memberType, if_true,
    Member.calculateLateFee, hd]
  generalize (currentTime - checkoutDate) / ticksPerHour / 24 = d at hlo hhi ⊢
  have hw : wrapInt32 (d - 15) = d - 15 := by unfold wrapInt32; omega
  rw [hw]
  by_cases hd15 : d - 15 ≤ 0
  · have hm : max 0 (d - 15) = 0 := by omega
    simp [hm]
  · have hm : max 0 (d - 15) = d - 15 := by omega
    have hpos : d - 15 > 0 := by omega
    rw [hm, if_pos hpos]
    unfold wrapInt32
    omega

/-! ## The holder invariant -/

theorem holderInv_modifyBook {catalog : List Book} {isbn : String} {f : Book → Book}
    (h : holderInv catalog) (hf : ∀ item, findbook catalog isbn = some item → (f item).holderOk) :
    holderInv (modifyBook isbn f catalog) := by
  intro b hb
  rcases mem_modifyBook hb with h1 | ⟨item, h1, h2⟩
  · exact h b h1
  · rw [h2]; exact hf item h1

theorem markBorrowed_holderOk (b : Book) : (markBorrowed b).holderOk := by
  constructor
  · intro h
    have h2 : ("borrowed" : String) = "reserved" := h
    exact absurd h2 (by decide)
  · intro _; rfl

theorem markReturned_holderOk (b : Book) : (markReturned b).holderOk := by
  by_cases h : b.bookedBy = ""
  · simp [markReturned, Book.setAvailability, Book.holderOk, h]
  · simp [markReturned, Book.setAvailability, Book.holderOk, h]

theorem holderInv_checkoutbook {catalog : List Book} (member : Member) (isbn : String)
    (tElig now : Int) (h : holderInv catalog) :
    holderInv (checkoutbook catalog member isbn tElig now).1 := by
  cases he : (checkoutbook catalog member isbn tElig now).2.2.isErr with
  | true => rw [(checkoutbook_failure he).1]; exact h
  | false =>
    obtain ⟨item, _, _, _, _, hc, _⟩ := checkoutbook_success he
    rw [hc]
    exact holderInv_modifyBook h (fun b _ => markBorrowed_holderOk b)

theorem holderInv_returnbook {catalog : List Book} (member : Member) (isbn : String)
    (currentTime : Int) (h : holderInv catalog) :
    holderInv (returnbook catalog member isbn currentTime).1 := by
  cases he : (returnbook catalog member isbn currentTime).2.2.isErr with
  | true => rw [(returnbook_failure he).1]; exact h
  | false =>
    obtain ⟨item, it, _, _, _, hr⟩ := returnbook_success he
    rw [hr]
    exact holderInv_modifyBook h (fun b _ => markReturned_holderOk b)

theorem holderInv_reservebook {catalog : List Book} (member : Member) (isbn : String)
    (h : holderInv catalog) :
    holderInv (reservebook catalog member isbn).1 := by
  cases he : (reservebook catalog member isbn).2.2.isErr with
  | true => rw [(reservebook_failure he).1]; exact h
  | false =>
    obtain ⟨item, hfi, hb, _, hc, _⟩ := reservebook_success he
    rw [hc]
    refine holderInv_modifyBook h (fun b hfb => ?_)
    have hbb : b.availability = "borrowed" := by
      rw [hfi] at hfb
      cases hfb
      exact hb
    constructor
    · intro hr
      have : b.availability = "reserved" := hr
      rw [hbb] at this
      exact absurd this (by decide)
    · intro hr
      have : b.availability = "available" := hr
      rw [hbb] at this
      exact absurd this (by decide)

theorem step_catalog (s : LibrarySystem) (a : Action) :
    (step s a).1.catalog = s.catalog ∨
    ∃ m, s.memberDatabase[a.member]? = some m ∧ (step s a).1.catalog = (a.run s.catalog m).1 := by
  unfold step
  cases hm : s.memberDatabase[a.member]? with
  | none => left; rfl
  | some m => right; exact ⟨m, rfl, rfl⟩

theorem holderInv_run {catalog : List Book} (m : Member) (a : Action)
    (h : holderInv catalog) : holderInv (a.run catalog m).1 := by
  cases a with
  | checkout _ isbn tElig now => exact holderInv_checkoutbook m isbn tElig now h
  | returnItem _ isbn currentTime => exact holderInv_returnbook m isbn currentTime h
  | reserve _ isbn => exact holderInv_reservebook m isbn h
  | payFees _ amount => exact h

/-! ## Loan counts -/

theorem totalLoans_set (isbn : String) (members : List Member) (i : Nat) (m m' : Member)
    (h : members[i]? = some m) :
    totalLoans isbn (members.set i m') + loanCount isbn m
      = totalLoans isbn members + loanCount isbn m' := by
  induction members generalizing i with
  | nil => simp at h
  | cons x rest ih =>
    cases i with
    | zero =>
      simp at h
      subst h
      simp [totalLoans]
      omega
    | succ k =>
      simp at h
      have := ih k h
      simp [totalLoans] at this ⊢
      omega

theorem loanCount_checkoutItem (j isbn : String) (m : Member) (now : Int) :
    loanCount j { m with membership := m.membership.checkoutItem isbn now }
      = loanCount j m + (if isbn = j then 1 else 0) := by
  simp [loanCount, Membership.checkoutItem, List.countP_append, List.countP_cons]

theorem returnItem_loans {ms : Membership} {isbn : String} (fee : Int) {it : BorrowInfo}
    (h : ms.checkedOutItems.find? (fun info => decide (info.isbn = isbn)) = some it) :
    (ms.returnItem isbn fee).checkedOutItems
      = ms.checkedOutItems.eraseP (fun info => decide (info.isbn = isbn)) := by
  simp [Membership.returnItem, h]

theorem loanCount_returnItem_same (isbn : String) (m : Member) (fee : Int) (it : BorrowInfo)
    (h : m.membership.checkedOutItems.find? (fun info => decide (info.isbn = isbn)) = some it) :
    loanCount isbn { m with membership := m.membership.returnItem isbn fee } + 1
      = loanCount isbn m := by
  have hmem := List.mem_of_find?_eq_some h
  have hp := List.find?_some h
  obtain ⟨loan, before, after, hb, hpl, hsplit, herase⟩ :=
    List.exists_of_eraseP (p := fun info => decide (info.isbn = isbn)) hmem hp
  simp only [loanCount, returnItem_loans fee h, herase]
  rw [hsplit]
  simp only [List.countP_append, List.countP_cons, hpl, if_true]
  omega

theorem loanCount_returnItem_other (j isbn : String) (hne : j ≠ isbn) (m : Member) (fee : Int) :
    loanCount j { m with membership := m.membership.returnItem isbn fee }
      = loanCount j m := by
  cases h : m.membership.checkedOutItems.find? (fun info => decide (info.isbn = isbn)) with
  | none => simp [loanCount, Membership.returnItem, h]
  | some it =>
    have hmem := List.mem_of_find?_eq_some h
    have hp := List.find?_some h
    obtain ⟨loan, before, after, hb, hpl, hsplit, herase⟩ :=
      List.exists_of_eraseP (p := fun info => decide (info.isbn = isbn)) hmem hp
    have hl : ¬ loan.isbn = j := by
      intro hj
      have : loan.isbn = isbn := by simpa using hpl
      exact hne (hj.symm.trans this)
    simp only [loanCount, returnItem_loans fee h, herase]
    rw [hsplit]
    simp [List.countP_append, List.countP_cons, hl]

theorem keepsBorrowed_refl (catalog : List Book) (isbn : String) :
    keepsBorrowed catalog catalog isbn :=
  fun item hf hb => ⟨item, hf, hb⟩

theorem keepsBorrowed_other {catalog : List Book} {isbn j : String} (f : Book → Book)
    (hf : ∀ b, (f b).isbn = b.isbn) (hne : j ≠ isbn) :
    keepsBorrowed catalog (modifyBook isbn f catalog) j := by
  intro item hfi hb
  exact ⟨item, by rw [findbook_modifyBook_other catalog f hf hne]; exact hfi, hb⟩

/-- What one call does to the loans of `j` in the caller's ledger and to the catalog entry
of `j`: nothing is lent or returned and a borrowed entry stays borrowed; or one loan is
added, the entry was not borrowed and now is; or one loan is removed. -/
theorem run_effect (catalog : List Book) (m : Member) (a : Action) (j : String) :
    (loanCount j (a.run catalog m).2.1 = loanCount j m ∧
      keepsBorrowed catalog (a.run catalog m).1 j) ∨
    (loanCount j (a.run catalog m).2.1 = loanCount j m + 1 ∧
      (∃ item, findbook catalog j = some item ∧ item.availability ≠ "borrowed") ∧
      (∃ item', findbook (a.run catalog m).1 j = some item' ∧
        item'.availability = "borrowed")) ∨
    (loanCount j (a.run catalog m).2.1 + 1 = loanCount j m) := by
  cases a with
  | checkout _ isbn tElig now =>
    simp only [Action.run]
    cases he : (checkoutbook catalog m isbn tElig now).2.2.isErr with
    | true =>
      obtain ⟨h1, h2⟩ := checkoutbook_failure he
      rw [h1, h2]
      exact Or.inl ⟨rfl, keepsBorrowed_refl _ _⟩
    | false =>
      obtain ⟨item, hf, hnb, _, _, hc, hm⟩ := checkoutbook_success he
      rw [hc, hm, loanCount_checkoutItem]
      by_cases hj : isbn = j
      · subst hj
        right; left
        refine ⟨by simp, ⟨item, hf, hnb⟩, markBorrowed item,
          findbook_modifyBook_same markBorrowed (fun _ => rfl) hf, rfl⟩
      · left
        exact ⟨by simp [hj],
          keepsBorrowed_other markBorrowed (fun _ => rfl) (fun h => hj h.symm)⟩
  | returnItem _ isbn currentTime =>
    simp only [Action.run]
    cases he : (returnbook catalog m isbn currentTime).2.2.isErr with
    | true =>
      obtain ⟨h1, h2⟩ := returnbook_failure he
      rw [h1, h2]
      exact Or.inl ⟨rfl, keepsBorrowed_refl _ _⟩
    | false =>
      obtain ⟨item, it, hf, _, hl, hr⟩ := returnbook_success he
      rw [hr]
      by_cases hj : j = isbn
      · subst hj
        right; right
        exact loanCount_returnItem_same j m _ it hl
      · left
        exact ⟨loanCount_returnItem_other j isbn hj m _,
          keepsBorrowed_other markReturned (fun _ => rfl) hj⟩
  | reserve _ isbn =>
    simp only [Action.run]
    cases he : (reservebook catalog m isbn).2.2.isErr with
    | true =>
      obtain ⟨h1, h2⟩ := reservebook_failure he
      rw [h1, h2]
      exact Or.inl ⟨rfl, keepsBorrowed_refl _ _⟩
    | false =>
      obtain ⟨item, hf, hb, _, hc, hm⟩ := reservebook_success he
      rw [hc, hm]
      left
      refine ⟨rfl, ?_⟩
      by_cases hj : j = isbn
      · subst hj
        intro item2 _ _
        exact ⟨_, findbook_modifyBook_same (fun b => b.setBookedBy m.memberId)
          (fun _ => rfl) hf, hb⟩
      · exact keepsBorrowed_other _ (fun _ => rfl) hj
  | payFees _ amount =>
    exact Or.inl ⟨rfl, keepsBorrowed_refl _ _⟩

theorem loanInv_step {s : LibrarySystem} (a : Action) (h : loanInv s) :
    loanInv (step s a).1 := by
  unfold step
  cases hm : s.memberDatabase[a.member]? with
  | none => exact h
  | some m =>
    intro j
    have hset := totalLoans_set j s.memberDatabase a.member m (a.run s.catalog m).2.1 hm
    obtain ⟨h1, h2⟩ := h j
    simp only
    rcases run_effect s.catalog m a j with ⟨hl, hk⟩ | ⟨hl, ⟨item, hf, hnb⟩, hafter⟩ | hl
    · have heq : totalLoans j (s.memberDatabase.set a.member (a.run s.catalog m).2.1)
          = totalLoans j s.memberDatabase := by omega
      rw [heq]
      refine ⟨h1, fun hge => ?_⟩
      obtain ⟨item, hf, hb⟩ := h2 hge
      exact hk item hf hb
    · have hzero : totalLoans j s.memberDatabase = 0 := by
        by_contra hne
        obtain ⟨item2, hf2, hb2⟩ := h2 (by omega)
        rw [hf] at hf2
        cases hf2
        exact hnb hb2
      exact ⟨by omega, fun _ => hafter⟩
    · exact ⟨by omega, fun hge => by omega⟩

theorem loanInv_runAll {s : LibrarySystem} (calls : List Action) (h : loanInv s) :
    loanInv (runAll s calls) := by
  induction calls generalizing s with
  | nil => exact h
  | cons a rest ih => exact ih (loanInv_step a h)

theorem totalLoans_of_empty (isbn : String) (members : List Member)
    (h : ∀ m ∈ members, m.membership.checkedOutItems = []) :
    totalLoans isbn members = 0 := by
  induction members with
  | nil => rfl
  | cons x rest ih =>
    have hx := h x (List.mem_cons_self _ _)
    have hr := ih (fun m hm => h m (List.mem_cons_of_mem _ hm))
    simp [totalLoans, loanCount, hx] at hr ⊢
    exact hr

theorem loanInv_initial {s : LibrarySystem} (h : initial s) : loanInv s := by
  intro j
  have h0 := totalLoans_of_empty j s.memberDatabase h.2
  exact ⟨by omega, fun hge => by omega⟩

/-! ## Reservations are kept -/

theorem step_of_member {s : LibrarySystem} {a : Action} {m : Member}
    (hm : s.memberDatabase[a.member]? = some m) :
    step s a =
      ({ catalog := (a.run s.catalog m).1,
         memberDatabase := s.memberDatabase.set a.member (a.run s.catalog m).2.1 },
       (a.run s.catalog m).2.2) := by
  simp [step, hm]

theorem step_of_no_member {s : LibrarySystem} {a : Action}
    (hm : s.memberDatabase[a.member]? = none) : step s a = (s, .MemberNotFound) := by
  simp [step, hm]

theorem heldFor_other {catalog : List Book} {isbn holder k : String} (f : Book → Book)
    (hf : ∀ b, (f b).isbn = b.isbn) (hne : isbn ≠ k) (h : heldFor isbn holder catalog) :
    heldFor isbn holder (modifyBook k f catalog) := by
  obtain ⟨item, hfi, hh, hav⟩ := h
  exact ⟨item, by rw [findbook_modifyBook_other catalog f hf hne]; exact hfi, hh, hav⟩

theorem heldFor_run {catalog : List Book} {isbn holder : String} (m : Member) (a : Action)
    (hne : holder ≠ "") (h : heldFor isbn holder catalog)
    (hno : ¬ (a.isCheckoutOf isbn = true ∧ (a.run catalog m).2.2.isErr = false)) :
    heldFor isbn holder (a.run catalog m).1 := by
  cases a with
  | checkout _ k tElig now =>
    simp only [Action.run] at hno ⊢
    cases he : (checkoutbook catalog m k tElig now).2.2.isErr with
    | true => rw [(checkoutbook_failure he).1]; exact h
    | false =>
      obtain ⟨item, _, _, _, _, hc, _⟩ := checkoutbook_success he
      rw [hc]
      have hk : isbn ≠ k := by
        intro hik
        exact hno ⟨by simp [Action.isCheckoutOf, hik], he⟩
      exact heldFor_other markBorrowed (fun _ => rfl) hk h
  | returnItem _ k currentTime =>
    simp only [Action.run]
    cases he : (returnbook catalog m k currentTime).2.2.isErr with
    | true => rw [(returnbook_failure he).1]; exact h
    | false =>
      obtain ⟨item, it, hf, _, _, hr⟩ := returnbook_success he
      rw [hr]
      by_cases hk : isbn = k
      · subst hk
        obtain ⟨item2, hf2, hh, _⟩ := h
        rw [hf] at hf2
        cases hf2
        have hb : ¬ item.bookedBy = "" := by rw [hh]; exact hne
        refine ⟨markReturned item, findbook_modifyBook_same markReturned (fun _ => rfl) hf,
          hh, Or.inr ?_⟩
        simp [markReturned, Book.setAvailability, hb]
      · exact heldFor_other markReturned (fun _ => rfl) hk h
  | reserve _ k =>
    simp only [Action.run]
    cases he : (reservebook catalog m k).2.2.isErr with
    | true => rw [(reservebook_failure he).1]; exact h
    | false =>
      obtain ⟨item, hf, _, hempty, hc, _⟩ := reservebook_success he
      rw [hc]
      by_cases hk : isbn = k
      · subst hk
        obtain ⟨item2, hf2, hh, _⟩ := h
        rw [hf] at hf2
        cases hf2
        exact absurd (hh.symm.trans hempty) hne
      · exact heldFor_other _ (fun _ => rfl) hk h
  | payFees _ amount => exact h

theorem heldFor_step {s : LibrarySystem} {isbn holder : String} (a : Action)
    (hne : holder ≠ "") (h : heldFor isbn holder s.catalog)
    (hno : ¬ (a.isCheckoutOf isbn = true ∧ (step s a).2.isErr = false)) :
    heldFor isbn holder (step s a).1.catalog := by
  cases hm : s.memberDatabase[a.member]? with
  | none => rw [step_of_no_member hm]; exact h
  | some m =>
    rw [step_of_member hm] at hno ⊢
    exact heldFor_run m a hne h hno

theorem heldFor_runAll {s : LibrarySystem} {isbn holder : String} (calls : List Action)
    (hne : holder ≠ "") (h : heldFor isbn holder s.catalog)
    (hno : noCheckoutYet isbn s calls) :
    heldFor isbn holder (runAll s calls).catalog := by
  induction calls generalizing s with
  | nil => exact h
  | cons a rest ih =>
    exact ih (heldFor_step a hne h hno.1) hno.2

theorem heldFor_checkout {catalog : List Book} {isbn holder : String} {m : Member}
    {tElig now : Int} (h : heldFor isbn holder catalog)
    (hok : (checkoutbook catalog m isbn tElig now).2.2.isErr = false) :
    m.memberId = holder := by
  obtain ⟨item, hf, hnb, hres, _, _, _⟩ := checkoutbook_success hok
  obtain ⟨item2, hf2, hh, hav⟩ := h
  rw [hf] at hf2
  cases hf2
  have hr : item.availability = "reserved" := hav.resolve_left hnb
  by_contra hm
  exact hres ⟨hr, by rw [hh]; exact fun h => hm h.symm⟩

/-! ## Failing calls -/

theorem set_same {α : Type} (l : List α) (i : Nat) (a : α) (h : l[i]? = some a) :
    l.set i a = l := by
  induction l generalizing i with
  | nil => rfl
  | cons x rest ih =>
    cases i with
    | zero => simp at h; simp [h]
    | succ k => simp at h; simp [ih k h]

theorem step_failure {s : LibrarySystem} {a : Action} (h : (step s a).2.isErr = true) :
    (step s a).1 = s := by
  cases hm : s.memberDatabase[a.member]? with
  | none => rw [step_of_no_member hm]
  | some m =>
    rw [step_of_member hm] at h ⊢
    have hrun : (a.run s.catalog m).1 = s.catalog ∧ (a.run s.catalog m).2.1 = m := by
      cases a with
      | checkout _ isbn tElig now => exact checkoutbook_failure h
      | returnItem _ isbn currentTime => exact returnbook_failure h
      | reserve _ isbn => exact reservebook_failure h
      | payFees _ amount => simp [Action.run, Outcome.isErr] at h
    simp only [hrun.1, hrun.2, set_same _ _ _ hm]

/-! ## Eligibility -/

theorem daysSinceCheckout_of_days {currentTime checkoutDate d : Int} (h0 : 0 ≤ d)
    (h1 : d < 106751) (h : (currentTime - checkoutDate) / ticksPerHour / 24 = d) :
    daysSinceCheckout currentTime checkoutDate = d := by
  have hpos : (0 : Int) < ticksPerHour := by decide
  have hle : checkoutDate ≤ currentTime := by
    by_contra hlt
    have hneg : currentTime - checkoutDate < 0 := by omega
    have h2 : (currentTime - checkoutDate) / ticksPerHour < 0 := Int.ediv_neg' hneg hpos
    omega
  have hrange : currentTime - checkoutDate < 9223372036854775808 := by
    by_contra hge
    unfold ticksPerHour at h
    omega
  rw [(daysSinceCheckout_eq hle hrange).1, h]

theorem checkoutbook_available_ineligible {catalog : List Book} {isbn : String} {item : Book}
    (member : Member) (tElig now : Int)
    (hf : findbook catalog isbn = some item) (ha : item.availability = "available")
    (he : member.isEligibleToBorrow tElig = false) :
    checkoutbook catalog member isbn tElig now = (catalog, member, .NotEligible) := by
  have h1 : ¬ item.availability = "borrowed" := by rw [ha]; decide
  have h2 : ¬ item.availability = "reserved" := by rw [ha]; decide
  simp [checkoutbook, hf, h1, h2, he]

/-! ## Fees never go down -/

theorem tdiv_days_bound {x : Int} (h1 : -18446744073709551616 < x)
    (h2 : x < 18446744073709551616) :
    -213504 < Int.tdiv (Int.tdiv x ticksPerHour) 24 ∧
    Int.tdiv (Int.tdiv x ticksPerHour) 24 < 213504 := by
  have hpos : (0 : Int) ≤ ticksPerHour := by decide
  by_cases hx : 0 ≤ x
  · have hq : 0 ≤ x / ticksPerHour := Int.ediv_nonneg hx hpos
    rw [Int.tdiv_eq_ediv hx hpos, Int.tdiv_eq_ediv hq (by decide)]
    unfold ticksPerHour at *
    omega
  · have hy : 0 ≤ -x := by omega
    have hq : 0 ≤ (-x) / ticksPerHour := Int.ediv_nonneg hy hpos
    have e1 : Int.tdiv x ticksPerHour = -((-x) / ticksPerHour) := by
      rw [← Int.tdiv_eq_ediv hy hpos, Int.neg_tdiv, neg_neg]
    have e2 : Int.tdiv (-((-x) / ticksPerHour)) 24 = -((-x) / ticksPerHour / 24) := by
      rw [Int.neg_tdiv, Int.tdiv_eq_ediv hq (by decide)]
    rw [e1, e2]
    unfold ticksPerHour at *
    omega

theorem wrapInt32_of_range {x : Int} (h1 : -2147483648 ≤ x) (h2 : x < 2147483648) :
    wrapInt32 x = x := by
  unfold wrapInt32
  rw [Int.emod_eq_of_lt (by omega) (by omega)]
  omega

theorem returnFee_nonneg (m : Member) {currentTime checkoutDate : Int}
    (h1 : isTimePoint currentTime) (h2 : isTimePoint checkoutDate) :
    0 ≤ returnFee m currentTime checkoutDate := by
  unfold isTimePoint at h1 h2
  obtain ⟨hlo, hhi⟩ := tdiv_days_bound (x := currentTime - checkoutDate) (by omega) (by omega)
  unfold returnFee daysSinceCheckout
  generalize Int.tdiv (Int.tdiv (currentTime - checkoutDate) ticksPerHour) 24 = d at hlo hhi ⊢
  simp only
  have hp : ∃ p : Int, (p = 15 ∨ p = 30) ∧
      (if m.getMemberType = "student" then (15 : Int) else 30) = p := by
    by_cases hs : m.getMemberType = "student"
    · exact ⟨15, Or.inl rfl, by simp [hs]⟩
    · exact ⟨30, Or.inr rfl, by simp [hs]⟩
  obtain ⟨p, hp, hpe⟩ := hp
  rw [hpe]
  cases hk : m.kind with
  | professor => simp [Member.calculateLateFee, hk]
  | LibraryStaff => simp [Member.calculateLateFee, hk]
  | CollegeStudent =>
    simp only [Member.calculateLateFee, hk]
    have hw : wrapInt32 (wrapInt32 d - p) = d - p := by
      unfold wrapInt32
      omega
    rw [hw]
    have hq : 0 ≤ max 0 (d - p) ∧ max 0 (d - p) < 213504 := by omega
    generalize max 0 (d - p) = q at hq ⊢
    split
    · rw [wrapInt32_of_range (by omega) (by omega)]
      omega
    · exact le_refl 0



theorem returnItem_pendingFees (ms : Membership) (isbn : String) (fee : Int) (h : 0 ≤ fee) :
    ms.pendingFees ≤ (ms.returnItem isbn fee).pendingFees := by
  unfold Membership.returnItem
  split
  · have : (0 : Rat) ≤ (fee : Rat) := by exact_mod_cast h
    simp only
    linarith
  · exact le_refl _

theorem run_pendingFees (catalog : List Book) (m : Member) (a : Action)
    (h0 : 0 ≤ m.membership.pendingFees)
    (hclock : ∀ t ∈ a.clocks, isTimePoint t)
    (hledger : ∀ loan ∈ m.membership.checkedOutItems, isTimePoint loan.checkoutDate) :
    0 ≤ (a.run catalog m).2.1.membership.pendingFees ∧
    (a.isPayFees = false →
      m.membership.pendingFees ≤ (a.run catalog m).2.1.membership.pendingFees) := by
  cases a with
  | checkout _ isbn tElig now =>
    simp only [Action.run]
    cases he : (checkoutbook catalog m isbn tElig now).2.2.isErr with
    | true => rw [(checkoutbook_failure he).2]; exact ⟨h0, fun _ => le_refl _⟩
    | false =>
      obtain ⟨_, _, _, _, _, _, hm⟩ := checkoutbook_success he
      rw [hm]
      exact ⟨h0, fun _ => le_refl _⟩
  | returnItem _ isbn currentTime =>
    simp only [Action.run]
    cases he : (returnbook catalog m isbn currentTime).2.2.isErr with
    | true => rw [(returnbook_failure he).2]; exact ⟨h0, fun _ => le_refl _⟩
    | false =>
      obtain ⟨_, it, _, _, hl, hr⟩ := returnbook_success he
      rw [hr]
      have hfee : 0 ≤ returnFee m currentTime it.checkoutDate :=
        returnFee_nonneg m (hclock currentTime (by simp [Action.clocks]))
          (hledger it (List.mem_of_find?_eq_some hl))
      have hmono := returnItem_pendingFees m.membership isbn _ hfee
      exact ⟨le_trans h0 hmono, fun _ => hmono⟩
  | reserve _ isbn =>
    simp only [Action.run]
    cases he : (reservebook catalog m isbn).2.2.isErr with
    | true => rw [(reservebook_failure he).2]; exact ⟨h0, fun _ => le_refl _⟩
    | false =>
      obtain ⟨_, _, _, _, _, hm⟩ := reservebook_success he
      rw [hm]
      exact ⟨h0, fun _ => le_refl _⟩
  | payFees _ amount =>
    refine ⟨?_, fun h => ?_⟩
    · simp [Action.run, Membership.clearFees]
    · simp [Action.isPayFees] at h

theorem step_member_at (s : LibrarySystem) (a : Action) (i : Nat) (m : Member)
    (hm : s.memberDatabase[i]? = some m) :
    (step s a).1.memberDatabase[i]? = some m ∨
    (a.member = i ∧ (step s a).1.memberDatabase[i]? = some (a.run s.catalog m).2.1) := by
  cases hc : s.memberDatabase[a.member]? with
  | none => rw [step_of_no_member hc]; exact Or.inl hm
  | some caller =>
    rw [step_of_member hc]
    by_cases hi : a.member = i
    · right
      rw [hi] at hc
      rw [hm] at hc
      cases hc
      have hlt : i < s.memberDatabase.length := by
        by_contra hge
        rw [List.getElem?_eq_none (by omega)] at hm
        cases hm
      refine ⟨hi, ?_⟩
      simp only [hi, List.getElem?_set, hlt, if_true]
    · left
      simp only [List.getElem?_set, hi, if_false]
      exact hm

/-! ## Reservation counts -/

theorem countP_modifyBook_drop {catalog : List Book} {isbn : String} {item : Book}
    (p : Book → Bool) (f : Book → Book) (hf : findbook catalog isbn = some item)
    (hp : p item = true) (hq : p (f item) = false) :
    (modifyBook isbn f catalog).countP p + 1 = catalog.countP p := by
  induction catalog with
  | nil => simp [findbook] at hf
  | cons x rest ih =>
    by_cases hx : x.isbn = isbn
    · simp [findbook, hx] at hf
      subst hf
      simp [modifyBook, hx, List.countP_cons, hp, hq]
    · simp [findbook, hx] at hf
      have := ih hf
      simp only [modifyBook, hx, if_false, List.countP_cons]
      omega

theorem checkoutbook_result {catalog : List Book} {member : Member} {isbn : String}
    {tElig now : Int}
    (h : (checkoutbook catalog member isbn tElig now).2.2.isErr = false) :
    ∃ item, findbook catalog isbn = some item ∧
      checkoutbook catalog member isbn tElig now =
        (modifyBook isbn markBorrowed catalog,
         { member with membership := member.membership.checkoutItem isbn now },
         .checkedOut
           (if decide (item.availability = "reserved" ∧ item.bookedBy = member.memberId)
            then some (getReservationCount (modifyBook isbn markBorrowed catalog)
              member.memberId)
            else none)) := by
  obtain ⟨item, hf, h1, h2, h3, _, _⟩ := checkoutbook_success h
  have h3f : ¬ member.isEligibleToBorrow tElig = false := by simp [h3]
  refine ⟨item, hf, ?_⟩
  simp only [checkoutbook, hf, if_neg h1, if_neg h2, if_neg h3f]

/-! ## Checkout followed by return -/

theorem modifyBook_roundtrip {catalog : List Book} {isbn : String} {item : Book}
    (f g : Book → Book) (hfi : ∀ b, (f b).isbn = b.isbn)
    (hf : findbook catalog isbn = some item) (hg : g (f item) = item) :
    modifyBook isbn g (modifyBook isbn f catalog) = catalog := by
  induction catalog with
  | nil => rfl
  | cons x rest ih =>
    by_cases hx : x.isbn = isbn
    · simp [findbook, hx] at hf
      subst hf
      simp [modifyBook, hx, hfi, hg]
    · simp [findbook, hx] at hf
      simp [modifyBook, hx, ih hf]

theorem loanCount_le_totalLoans (isbn : String) (members : List Member) (i : Nat) (m : Member)
    (h : members[i]? = some m) : loanCount isbn m ≤ totalLoans isbn members := by
  induction members generalizing i with
  | nil => simp at h
  | cons x rest ih =>
    cases i with
    | zero =>
      simp at h
      subst h
      simp [totalLoans]
    | succ k =>
      simp at h
      have := ih k h
      simp [totalLoans] at this ⊢
      omega

theorem find_loan_none_of_loanCount {isbn : String} {m : Member} (h : loanCount isbn m = 0) :
    m.membership.checkedOutItems.find? (fun info => decide (info.isbn = isbn)) = none := by
  rw [find_loan_eq_none_iff]
  intro info hi heq
  have hpos : 0 < loanCount isbn m :=
    List.countP_pos_iff.2 ⟨info, hi, by simpa using heq⟩
  omega

theorem holderInv_step {s : LibrarySystem} (a : Action) (h : holderInv s.catalog) :
    holderInv (step s a).1.catalog := by
  rcases step_catalog s a with hc | ⟨m, _, hc⟩
  · rw [hc]; exact h
  · rw [hc]; exact holderInv_run m a h

theorem holderInv_runAll {s : LibrarySystem} (calls : List Action) (h : holderInv s.catalog) :
    holderInv (runAll s calls).catalog := by
  induction calls generalizing s with
  | nil => exact h
  | cons a rest ih => exact ih (holderInv_step a h)

theorem markReturned_markBorrowed {item : Book} (ha : item.availability = "available")
    (hb : item.bookedBy = "") : markReturned (markBorrowed item) = item := by
  cases item
  simp only [markReturned, markBorrowed, Book.setAvailability, Book.setBookedBy] at *
  simp [ha, hb]

theorem returnFee_timely (m : Member) {t t2 : Int} (hle : t ≤ t2)
    (hdays : (t2 - t) / ticksPerHour / 24 ≤ loanPeriod m) : returnFee m t2 t = 0 := by
  have hp : loanPeriod m = 15 ∨ loanPeriod m = 30 := by
    unfold loanPeriod
    split
    · exact Or.inl rfl
    · exact Or.inr rfl
  have hrange : t2 - t < 9223372036854775808 := by
    by_contra hge
    unfold ticksPerHour at hdays
    omega
  obtain ⟨hd, hlo, _⟩ := daysSinceCheckout_eq hle hrange
  have hunf : returnFee m t2 t
      = m.calculateLateFee (max 0 (wrapInt32 (daysSinceCheckout t2 t - loanPeriod m))) := rfl
  rw [hunf, hd]
  generalize (t2 - t) / ticksPerHour / 24 = d at hdays hlo ⊢
  have hw : wrapInt32 (d - loanPeriod m) = d - loanPeriod m :=
    wrapInt32_of_range (by omega) (by omega)
  have hm : max 0 (d - loanPeriod m) = 0 := by omega
  rw [hw, hm]
  cases hk : m.kind <;> simp [Member.calculateLateFee, hk]

theorem checkout_return_core {catalog : List Book} {m : Member} {isbn : String} {item : Book}
    {tElig t t2 : Int} (hf : findbook catalog isbn = some item)
    (ha : item.availability = "available") (hb : item.bookedBy = "")
    (hno : m.membership.checkedOutItems.find? (fun info => decide (info.isbn = isbn)) = none)
    (hok : (checkoutbook catalog m isbn tElig t).2.2.isErr = false)
    (hle : t ≤ t2) (hdays : (t2 - t) / ticksPerHour / 24 ≤ loanPeriod m) :
    returnbook (checkoutbook catalog m isbn tElig t).1 (checkoutbook catalog m isbn tElig t).2.1
      isbn t2 = (catalog, m, .returned 0) := by
  obtain ⟨_, _, _, _, _, hc, hm⟩ := checkoutbook_success hok
  rw [hc, hm]
  have hf1 := findbook_modifyBook_same markBorrowed (fun _ => rfl) hf
  have hfind : (m.membership.checkedOutItems ++ [(⟨isbn, t⟩ : BorrowInfo)]).find?
      (fun info => decide (info.isbn = isbn)) = some ⟨isbn, t⟩ := by
    simp [List.find?_append, hno]
  have herase : (m.membership.checkedOutItems ++ [(⟨isbn, t⟩ : BorrowInfo)]).eraseP
      (fun info => decide (info.isbn = isbn)) = m.membership.checkedOutItems := by
    rw [List.eraseP_append_right]
    · simp
    · intro b hb2
      have := (find_loan_eq_none_iff _ isbn).1 hno b hb2
      simpa using this
  have hfee : returnFee { m with membership := m.membership.checkoutItem isbn t } t2 t = 0 :=
    returnFee_timely _ hle hdays
  have hcat := modifyBook_roundtrip markBorrowed markReturned (fun _ => rfl) hf
    (markReturned_markBorrowed ha hb)
  have hmem : Membership.returnItem (m.membership.checkoutItem isbn t) isbn 0 = m.membership := by
    unfold Membership.returnItem
    simp only [Membership.checkoutItem, hfind, herase]
    simp
  have hb1 : (markBorrowed item).availability = "borrowed" := rfl
  unfold returnbook
  rw [hf1]
  simp only [hb1, ne_eq, not_true_eq_false, if_false]
  simp only [Membership.checkoutItem, hfind] at hfee hmem ⊢
  simp only [hfee, hcat, hmem]



theorem checkout_return_state {s : LibrarySystem} {member : Nat} {m : Member} {isbn : String}
    {item : Book} {tElig t t2 : Int} (hloan : loanInv s) (hinv : holderInv s.catalog)
    (hm : s.memberDatabase[member]? = some m)
    (hf : findbook s.catalog isbn = some item) (ha : item.availability = "available")
    (hok : (step s (.checkout member isbn tElig t)).2.isErr = false)
    (hle : t ≤ t2) (hdays : (t2 - t) / ticksPerHour / 24 ≤ loanPeriod m) :
    step (step s (.checkout member isbn tElig t)).1 (.returnItem member isbn t2)
      = (s, .returned 0) := by
  have hb : item.bookedBy = "" := (hinv item (findbook_some_mem hf).1).2 ha
  have hzero : totalLoans isbn s.memberDatabase = 0 := by
    by_contra hne
    obtain ⟨item2, hf2, hb2⟩ := (hloan isbn).2 (by omega)
    rw [hf] at hf2
    cases hf2
    rw [ha] at hb2
    exact absurd hb2 (by decide)
  have hlc : loanCount isbn m = 0 := by
    have := loanCount_le_totalLoans isbn s.memberDatabase member m hm
    omega
  have hno := find_loan_none_of_loanCount hlc
  have hm1 : s.memberDatabase[(Action.checkout member isbn tElig t).member]? = some m := hm
  rw [step_of_member hm1] at hok ⊢
  have hok2 : (checkoutbook s.catalog m isbn tElig t).2.2.isErr = false := hok
  have hcore := checkout_return_core hf ha hb hno hok2 hle hdays
  have hlt : member < s.memberDatabase.length := by
    by_contra hge
    rw [List.getElem?_eq_none (by omega)] at hm
    cases hm
  have hm2 : (s.memberDatabase.set member (checkoutbook s.catalog m isbn tElig t).2.1)[
      (Action.returnItem member isbn t2).member]?
        = some (checkoutbook s.catalog m isbn tElig t).2.1 := by
    simp [Action.member, List.getElem?_set, hlt]
  simp only [Action.run]
  rw [step_of_member hm2]
  simp only [Action.run, hcore, Action.member, List.set_set, set_same _ _ _ hm]

/-! ## Borrowed items are on loan -/

theorem reflectsBorrowed_refl (catalog : List Book) (isbn : String) :
    reflectsBorrowed catalog catalog isbn :=
  fun item hf hb => ⟨item, hf, hb⟩

theorem reflectsBorrowed_other {catalog : List Book} {isbn j : String} (f : Book → Book)
    (hf : ∀ b, (f b).isbn = b.isbn) (hne : j ≠ isbn) :
    reflectsBorrowed catalog (modifyBook isbn f catalog) j := by
  intro item hfi hb
  rw [findbook_modifyBook_other catalog f hf hne] at hfi
  exact ⟨item, hfi, hb⟩

theorem markReturned_not_borrowed (b : Book) : (markReturned b).availability ≠ "borrowed" := by
  by_cases h : b.bookedBy = ""
  · simp [markReturned, Book.setAvailability, h]
  · simp [markReturned, Book.setAvailability, h]

/-- The converse view of one call on the loans of `j` in the caller's ledger: nothing is
lent or returned and a borrowed entry was borrowed before; or one loan is added; or one
loan is removed and the entry is no longer borrowed. -/
theorem run_effect_rev (catalog : List Book) (m : Member) (a : Action) (j : String) :
    (loanCount j (a.run catalog m).2.1 = loanCount j m ∧
      reflectsBorrowed catalog (a.run catalog m).1 j) ∨
    (loanCount j (a.run catalog m).2.1 = loanCount j m + 1) ∨
    (loanCount j (a.run catalog m).2.1 + 1 = loanCount j m ∧
      ∀ item', findbook (a.run catalog m).1 j = some item' →
        item'.availability ≠ "borrowed") := by
  cases a with
  | checkout _ isbn tElig now =>
    simp only [Action.run]
    cases he : (checkoutbook catalog m isbn tElig now).2.2.isErr with
    | true =>
      obtain ⟨h1, h2⟩ := checkoutbook_failure he
      rw [h1, h2]
      exact Or.inl ⟨rfl, reflectsBorrowed_refl _ _⟩
    | false =>
      obtain ⟨item, hf, hnb, _, _, hc, hm⟩ := checkoutbook_success he
      rw [hc, hm, loanCount_checkoutItem]
      by_cases hj : isbn = j
      · right; left
        simp [hj]
      · left
        exact ⟨by simp [hj],
          reflectsBorrowed_other markBorrowed (fun _ => rfl) (fun h => hj h.symm)⟩
  | returnItem _ isbn currentTime =>
    simp only [Action.run]
    cases he : (returnbook catalog m isbn currentTime).2.2.isErr with
    | true =>
      obtain ⟨h1, h2⟩ := returnbook_failure he
      rw [h1, h2]
      exact Or.inl ⟨rfl, reflectsBorrowed_refl _ _⟩
    | false =>
      obtain ⟨item, it, hf, _, hl, hr⟩ := returnbook_success he
      rw [hr]
      by_cases hj : j = isbn
      · subst hj
        right; right
        refine ⟨loanCount_returnItem_same j m _ it hl, ?_⟩
        intro item' hf'
        rw [findbook_modifyBook_same markReturned (fun _ => rfl) hf] at hf'
        cases hf'
        exact markReturned_not_borrowed item
      · left
        exact ⟨loanCount_returnItem_other j isbn hj m _,
          reflectsBorrowed_other markReturned (fun _ => rfl) hj⟩
  | reserve _ isbn =>
    simp only [Action.run]
    cases he : (reservebook catalog m isbn).2.2.isErr with
    | true =>
      obtain ⟨h1, h2⟩ := reservebook_failure he
      rw [h1, h2]
      exact Or.inl ⟨rfl, reflectsBorrowed_refl _ _⟩
    | false =>
      obtain ⟨item, hf, hb, _, hc, hm⟩ := reservebook_success he
      rw [hc, hm]
      left
      refine ⟨rfl, ?_⟩
      by_cases hj : j = isbn
      · subst hj
        intro item2 _ _
        exact ⟨item, hf, hb⟩
      · exact reflectsBorrowed_other _ (fun _ => rfl) hj
  | payFees _ amount =>
    exact Or.inl ⟨rfl, reflectsBorrowed_refl _ _⟩

theorem borrowedInv_step {s : LibrarySystem} (a : Action) (h : borrowedInv s) :
    borrowedInv (step s a).1 := by
  cases hm : s.memberDatabase[a.member]? with
  | none => rw [step_of_no_member hm]; exact h
  | some m =>
    rw [step_of_member hm]
    intro j item' hf' hb'
    have hset := totalLoans_set j s.memberDatabase a.member m (a.run s.catalog m).2.1 hm
    have hle := loanCount_le_totalLoans j s.memberDatabase a.member m hm
    simp only at hf' ⊢
    rcases run_effect_rev s.catalog m a j with ⟨hl, hk⟩ | hl | ⟨hl, hnb⟩
    · obtain ⟨item, hf, hb⟩ := hk item' hf' hb'
      have := h j item hf hb
      omega
    · omega
    · exact absurd hb' (hnb item' hf')

theorem borrowedInv_runAll {s : LibrarySystem} (calls : List Action) (h : borrowedInv s) :
    borrowedInv (runAll s calls) := by
  induction calls generalizing s with
  | nil => exact h
  | cons a rest ih => exact ih (borrowedInv_step a h)

theorem borrowedInv_initial {s : LibrarySystem} (h : initial s) : borrowedInv s := by
  intro j item hf hb
  have ha := h.1 item (findbook_some_mem hf).1
  rw [ha] at hb
  exact absurd hb (by decide)

/-! ## Unique ISBNs and ledger holders -/

theorem map_isbn_modifyBook (isbn : String) (f : Book → Book) (hf : ∀ b, (f b).isbn = b.isbn)
    (catalog : List Book) :
    (modifyBook isbn f catalog).map Book.isbn = catalog.map Book.isbn := by
  induction catalog with
  | nil => rfl
  | cons x rest ih =>
    by_cases hx : x.isbn = isbn
    · simp [modifyBook, hx, hf]
    · simp [modifyBook, hx, ih]

theorem map_isbn_run (catalog : List Book) (m : Member) (a : Action) :
    (a.run catalog m).1.map Book.isbn = catalog.map Book.isbn := by
  cases a with
  | checkout _ isbn tElig now =>
    simp only [Action.run]
    cases he : (checkoutbook catalog m isbn tElig now).2.2.isErr with
    | true => rw [(checkoutbook_failure he).1]
    | false =>
      obtain ⟨_, _, _, _, _, hc, _⟩ := checkoutbook_success he
      rw [hc]
      exact map_isbn_modifyBook isbn markBorrowed (fun _ => rfl) catalog
  | returnItem _ isbn currentTime =>
    simp only [Action.run]
    cases he : (returnbook catalog m isbn currentTime).2.2.isErr with
    | true => rw [(returnbook_failure he).1]
    | false =>
      obtain ⟨_, _, _, _, _, hr⟩ := returnbook_success he
      rw [hr]
      exact map_isbn_modifyBook isbn markReturned (fun _ => rfl) catalog
  | reserve _ isbn =>
    simp only [Action.run]
    cases he : (reservebook catalog m isbn).2.2.isErr with
    | true => rw [(reservebook_failure he).1]
    | false =>
      obtain ⟨_, _, _, _, hc, _⟩ := reservebook_success he
      rw [hc]
      exact map_isbn_modifyBook isbn (fun b => b.setBookedBy m.memberId) (fun _ => rfl) catalog
  | payFees _ amount => rfl

theorem map_isbn_step (s : LibrarySystem) (a : Action) :
    (step s a).1.catalog.map Book.isbn = s.catalog.map Book.isbn := by
  rcases step_catalog s a with hc | ⟨m, _, hc⟩
  · rw [hc]
  · rw [hc]; exact map_isbn_run s.catalog m a

theorem map_isbn_runAll (s : LibrarySystem) (calls : List Action) :
    (runAll s calls).catalog.map Book.isbn = s.catalog.map Book.isbn := by
  induction calls generalizing s with
  | nil => rfl
  | cons a rest ih => exact (ih (step s a).1).trans (map_isbn_step s a)

theorem findbook_of_mem_nodup {catalog : List Book} {b : Book} (hb : b ∈ catalog)
    (hu : (catalog.map Book.isbn).Nodup) : findbook catalog b.isbn = some b := by
  induction catalog with
  | nil => simp at hb
  | cons x rest ih =>
    simp only [List.map_cons, List.nodup_cons] at hu
    rcases List.mem_cons.1 hb with h | h
    · subst h
      simp [findbook]
    · have hx : ¬ x.isbn = b.isbn := by
        intro heq
        exact hu.1 (by rw [heq]; exact List.mem_map_of_mem _ h)
      simp [findbook, hx, ih h hu.2]

theorem ledgerHolders_eq_totalLoans (isbn : String) (members : List Member)
    (h : totalLoans isbn members ≤ 1) :
    ledgerHolders isbn members = totalLoans isbn members := by
  induction members with
  | nil => rfl
  | cons x rest ih =>
    have hsplit : totalLoans isbn (x :: rest) = loanCount isbn x + totalLoans isbn rest := by
      simp [totalLoans]
    rw [hsplit] at h ⊢
    have hrest := ih (by omega)
    have hx : (x.membership.checkedOutItems.any (fun info => decide (info.isbn = isbn)))
        = decide (0 < loanCount isbn x) := by
      simp only [loanCount, List.countP_pos_iff]
      rw [Bool.eq_iff_iff]
      simp
    unfold ledgerHolders at hrest ⊢
    rw [List.countP_cons, hrest, hx]
    by_cases hpos : 0 < loanCount isbn x
    · simp [hpos]; omega
    · simp [hpos]; omega

/-! ## Loan caps -/

theorem eligible_room {m : Member} {t : Int} (h : m.isEligibleToBorrow t = true) :
    (m.kind = .CollegeStudent → m.membership.checkedOutItems.length < 3) ∧
    (m.kind = .professor → m.membership.checkedOutItems.length < 5) := by
  constructor
  · intro hk
    simp [Member.isEligibleToBorrow, hk] at h
    exact h.1
  · intro hk
    by_cases h5 : m.membership.checkedOutItems.length ≥ 5
    · simp [Member.isEligibleToBorrow, hk, h5] at h
    · omega

theorem returnItem_length_le (ms : Membership) (isbn : String) (fee : Int) :
    (ms.returnItem isbn fee).checkedOutItems.length ≤ ms.checkedOutItems.length := by
  unfold Membership.returnItem
  split
  · exact List.length_eraseP_le _
  · exact le_refl _

theorem withinCap_run (catalog : List Book) (m : Member) (a : Action) (h : withinCap m) :
    withinCap (a.run catalog m).2.1 := by
  cases a with
  | checkout _ isbn tElig now =>
    simp only [Action.run]
    cases he : (checkoutbook catalog m isbn tElig now).2.2.isErr with
    | true => rw [(checkoutbook_failure he).2]; exact h
    | false =>
      obtain ⟨_, _, _, _, hel, _, hm⟩ := checkoutbook_success he
      rw [hm]
      have hroom := eligible_room hel
      constructor
      · intro hk
        have := hroom.1 hk
        simp only [Membership.checkoutItem, List.length_append, List.length_singleton]
        omega
      · intro hk
        have := hroom.2 hk
        simp only [Membership.checkoutItem, List.length_append, List.length_singleton]
        omega
  | returnItem _ isbn currentTime =>
    simp only [Action.run]
    cases he : (returnbook catalog m isbn currentTime).2.2.isErr with
    | true => rw [(returnbook_failure he).2]; exact h
    | false =>
      obtain ⟨_, it, _, _, _, hr⟩ := returnbook_success he
      rw [hr]
      have hlen := returnItem_length_le m.membership isbn (returnFee m currentTime it.checkoutDate)
      exact ⟨fun hk => le_trans hlen (h.1 hk), fun hk => le_trans hlen (h.2 hk)⟩
  | reserve _ isbn =>
    simp only [Action.run]
    cases he : (reservebook catalog m isbn).2.2.isErr with
    | true => rw [(reservebook_failure he).2]; exact h
    | false =>
      obtain ⟨_, _, _, _, _, hm⟩ := reservebook_success he
      rw [hm]; exact h
  | payFees _ amount => exact h

theorem withinCap_step {s : LibrarySystem} (a : Action)
    (h : ∀ m ∈ s.memberDatabase, withinCap m) :
    ∀ m ∈ (step s a).1.memberDatabase, withinCap m := by
  cases hm : s.memberDatabase[a.member]? with
  | none => rw [step_of_no_member hm]; exact h
  | some caller =>
    rw [step_of_member hm]
    intro m hmem
    rcases List.mem_or_eq_of_mem_set hmem with h1 | h1
    · exact h m h1
    · rw [h1]
      exact withinCap_run s.catalog caller a (h caller (List.getElem?_mem hm))

theorem withinCap_runAll {s : LibrarySystem} (calls : List Action)
    (h : ∀ m ∈ s.memberDatabase, withinCap m) :
    ∀ m ∈ (runAll s calls).memberDatabase, withinCap m := by
  induction calls generalizing s with
  | nil => exact h
  | cons a rest ih => exact ih (withinCap_step a h)

/-! ## Frame -/

theorem length_modifyBook (isbn : String) (f : Book → Book) (catalog : List Book) :
    (modifyBook isbn f catalog).length = catalog.length := by
  induction catalog with
  | nil => rfl
  | cons x rest ih =>
    by_cases hx : x.isbn = isbn
    · simp [modifyBook, hx]
    · simp [modifyBook, hx, ih]

theorem modifyBook_getElem? (isbn : String) (f : Book → Book) (catalog : List Book)
    (k : Nat) (b : Book) (hb : catalog[k]? = some b) :
    (modifyBook isbn f catalog)[k]? = some b ∨
    (isFirstWithIsbn catalog isbn k ∧ (modifyBook isbn f catalog)[k]? = some (f b)) := by
  induction catalog generalizing k with
  | nil => simp at hb
  | cons x rest ih =>
    by_cases hx : x.isbn = isbn
    · cases k with
      | zero =>
        simp at hb
        subst hb
        right
        refine ⟨⟨by simp [hx], fun k' hk' => absurd hk' (by omega)⟩, ?_⟩
        simp [modifyBook, hx]
      | succ n =>
        left
        simp only [modifyBook, hx, if_true]
        simpa using hb
    · cases k with
      | zero =>
        left
        simp only [modifyBook, hx, if_false]
        simpa using hb
      | succ n =>
        have hb2 : rest[n]? = some b := by simpa using hb
        rcases ih n hb2 with h | ⟨⟨hat, hfirst⟩, h⟩
        · left
          simp only [modifyBook, hx, if_false]
          simpa using h
        · right
          refine ⟨⟨by simpa using hat, ?_⟩, ?_⟩
          · intro k' hk'
            cases k' with
            | zero => simpa using hx
            | succ n' => simpa using hfirst n' (by omega)
          · simp only [modifyBook, hx, if_false]
            simpa using h

theorem run_catalog_shape (catalog : List Book) (m : Member) (a : Action) (i : String)
    (ha : a.isbn? = some i) :
    (a.run catalog m).1 = catalog ∨
    ∃ f : Book → Book, (∀ b, sameDescription b (f b)) ∧
      (a.run catalog m).1 = modifyBook i f catalog := by
  cases a with
  | checkout _ isbn tElig now =>
    simp only [Action.isbn?, Option.some.injEq] at ha
    subst ha
    simp only [Action.run]
    cases he : (checkoutbook catalog m isbn tElig now).2.2.isErr with
    | true => exact Or.inl (checkoutbook_failure he).1
    | false =>
      obtain ⟨_, _, _, _, _, hc, _⟩ := checkoutbook_success he
      exact Or.inr ⟨markBorrowed, fun _ => ⟨rfl, rfl, rfl, rfl, rfl⟩, hc⟩
  | returnItem _ isbn currentTime =>
    simp only [Action.isbn?, Option.some.injEq] at ha
    subst ha
    simp only [Action.run]
    cases he : (returnbook catalog m isbn currentTime).2.2.isErr with
    | true => exact Or.inl (returnbook_failure he).1
    | false =>
      obtain ⟨_, _, _, _, _, hr⟩ := returnbook_success he
      exact Or.inr ⟨markReturned, fun _ => ⟨rfl, rfl, rfl, rfl, rfl⟩, by rw [hr]⟩
  | reserve _ isbn =>
    simp only [Action.isbn?, Option.some.injEq] at ha
    subst ha
    simp only [Action.run]
    cases he : (reservebook catalog m isbn).2.2.isErr with
    | true => exact Or.inl (reservebook_failure he).1
    | false =>
      obtain ⟨_, _, _, _, hc, _⟩ := reservebook_success he
      exact Or.inr ⟨fun b => b.setBookedBy m.memberId, fun _ => ⟨rfl, rfl, rfl, rfl, rfl⟩, hc⟩
  | payFees _ amount => simp [Action.isbn?] at ha

theorem step_catalog_shape (s : LibrarySystem) (a : Action) (i : String)
    (ha : a.isbn? = some i) :
    (step s a).1.catalog = s.catalog ∨
    ∃ f : Book → Book, (∀ b, sameDescription b (f b)) ∧
      (step s a).1.catalog = modifyBook i f s.catalog := by
  rcases step_catalog s a with hc | ⟨m, _, hc⟩
  · exact Or.inl hc
  · rw [hc]; exact run_catalog_shape s.catalog m a i ha

theorem step_roster_other (s : LibrarySystem) (a : Action) (j : Nat) (hj : j ≠ a.member) :
    (step s a).1.memberDatabase[j]? = s.memberDatabase[j]? := by
  cases hm : s.memberDatabase[a.member]? with
  | none => rw [step_of_no_member hm]
  | some caller =>
    rw [step_of_member hm]
    have : ¬ a.member = j := fun h => hj h.symm
    simp only [List.getElem?_set, this, if_false]

theorem step_roster_length (s : LibrarySystem) (a : Action) :
    (step s a).1.memberDatabase.length = s.memberDatabase.length := by
  cases hm : s.memberDatabase[a.member]? with
  | none => rw [step_of_no_member hm]
  | some caller => rw [step_of_member hm]; simp

theorem reserve_roster (s : LibrarySystem) (member : Nat) (isbn : String) :
    (step s (.reserve member isbn)).1.memberDatabase = s.memberDatabase := by
  cases hm : s.memberDatabase[(Action.reserve member isbn).member]? with
  | none => rw [step_of_no_member hm]
  | some caller =>
    rw [step_of_member hm]
    have hsame : ((Action.reserve member isbn).run s.catalog caller).2.1 = caller := by
      simp only [Action.run]
      cases he : (reservebook s.catalog caller isbn).2.2.isErr with
      | true => exact (reservebook_failure he).2
      | false =>
        obtain ⟨_, _, _, _, _, h⟩ := reservebook_success he
        exact h
    simp only [hsame]
    exact set_same _ _ _ hm

theorem checkout_pendingFees (catalog : List Book) (m : Member) (isbn : String)
    (tElig now : Int) :
    (checkoutbook catalog m isbn tElig now).2.1.membership.pendingFees
      = m.membership.pendingFees := by
  cases he : (checkoutbook catalog m isbn tElig now).2.2.isErr with
  | true => rw [(checkoutbook_failure he).2]
  | false =>
    obtain ⟨_, _, _, _, _, _, hm⟩ := checkoutbook_success he
    rw [hm]
    rfl

/-! ## Staff catalog actions -/

theorem findbook_addbook {catalog : List Book} {isbn : String} {item : Book} (x : Book)
    (h : findbook catalog isbn = some item) : findbook (addbook catalog x) isbn = some item := by
  induction catalog with
  | nil => simp [findbook] at h
  | cons y rest ih =>
    by_cases hy : y.isbn = isbn
    · simp [findbook, hy] at h
      subst h
      simp [addbook, findbook, hy]
    · simp [findbook, hy] at h
      have := ih h
      simp only [addbook] at this
      simp [addbook, findbook, hy, this]

theorem findbook_removebook {catalog : List Book} {isbn j : String} (hne : j ≠ isbn) :
    findbook (removebook catalog isbn) j = findbook catalog j := by
  induction catalog with
  | nil => rfl
  | cons y rest ih =>
    simp only [removebook] at ih
    by_cases hy : y.isbn = isbn
    · have hij : ¬ isbn = j := fun h => hne h.symm
      simp [removebook, List.filter_cons, hy, findbook, hij, ih]
    · simp [removebook, List.filter_cons, hy, findbook, ih]

theorem findbook_removebook_same (catalog : List Book) (isbn : String) :
    findbook (removebook catalog isbn) isbn = none := by
  rw [findbook_eq_none_iff]
  intro b hb
  simp only [removebook, List.mem_filter, Bool.not_eq_true', decide_eq_false_iff_not] at hb
  exact hb.2

theorem findbook_addbook_none {catalog : List Book} {isbn : String} (x : Book)
    (h : findbook catalog isbn = none) :
    findbook (addbook catalog x) isbn = if x.isbn = isbn then some x else none := by
  induction catalog with
  | nil => simp [addbook, findbook]
  | cons y rest ih =>
    by_cases hy : y.isbn = isbn
    · simp [findbook, hy] at h
    · simp [findbook, hy] at h
      have := ih h
      simp only [addbook] at this
      simp [addbook, findbook, hy, this]

theorem modifyBook_of_none {catalog : List Book} {isbn : String} (f : Book → Book)
    (h : findbook catalog isbn = none) : modifyBook isbn f catalog = catalog := by
  induction catalog with
  | nil => rfl
  | cons y rest ih =>
    by_cases hy : y.isbn = isbn
    · simp [findbook, hy] at h
    · simp [findbook, hy] at h
      simp [modifyBook, hy, ih h]

theorem absentOrBorrowed_other {catalog : List Book} {isbn j : String} (f : Book → Book)
    (hf : ∀ b, (f b).isbn = b.isbn) (hne : j ≠ isbn) (h : absentOrBorrowed catalog j) :
    absentOrBorrowed (modifyBook isbn f catalog) j := by
  intro item hfi
  rw [findbook_modifyBook_other catalog f hf hne] at hfi
  exact h item hfi

/-- One call, seen from the loans of `j` in the caller's ledger and the catalog entry of
`j`: nothing is lent or returned and an entry that was absent or borrowed stays so; or one
loan is added, the entry was present and not borrowed, and now is borrowed; or one loan is
removed. -/
theorem run_effect_staff (catalog : List Book) (m : Member) (a : Action) (j : String) :
    (loanCount j (a.run catalog m).2.1 = loanCount j m ∧
      (absentOrBorrowed catalog j → absentOrBorrowed (a.run catalog m).1 j)) ∨
    (loanCount j (a.run catalog m).2.1 = loanCount j m + 1 ∧
      ¬ absentOrBorrowed catalog j ∧ absentOrBorrowed (a.run catalog m).1 j) ∨
    (loanCount j (a.run catalog m).2.1 + 1 = loanCount j m) := by
  cases a with
  | checkout _ isbn tElig now =>
    simp only [Action.run]
    cases he : (checkoutbook catalog m isbn tElig now).2.2.isErr with
    | true =>
      obtain ⟨h1, h2⟩ := checkoutbook_failure he
      rw [h1, h2]
      exact Or.inl ⟨rfl, fun h => h⟩
    | false =>
      obtain ⟨item, hf, hnb, _, _, hc, hm⟩ := checkoutbook_success he
      rw [hc, hm, loanCount_checkoutItem]
      by_cases hj : isbn = j
      · subst hj
        right; left
        refine ⟨by simp, fun hab => hnb (hab item hf), ?_⟩
        intro item' hf'
        rw [findbook_modifyBook_same markBorrowed (fun _ => rfl) hf] at hf'
        cases hf'
        rfl
      · left
        exact ⟨by simp [hj],
          absentOrBorrowed_other markBorrowed (fun _ => rfl) (fun h => hj h.symm)⟩
  | returnItem _ isbn currentTime =>
    simp only [Action.run]
    cases he : (returnbook catalog m isbn currentTime).2.2.isErr with
    | true =>
      obtain ⟨h1, h2⟩ := returnbook_failure he
      rw [h1, h2]
      exact Or.inl ⟨rfl, fun h => h⟩
    | false =>
      obtain ⟨item, it, hf, _, hl, hr⟩ := returnbook_success he
      rw [hr]
      by_cases hj : j = isbn
      · subst hj
        right; right
        exact loanCount_returnItem_same j m _ it hl
      · left
        exact ⟨loanCount_returnItem_other j isbn hj m _,
          absentOrBorrowed_other markReturned (fun _ => rfl) hj⟩
  | reserve _ isbn =>
    simp only [Action.run]
    cases he : (reservebook catalog m isbn).2.2.isErr with
    | true =>
      obtain ⟨h1, h2⟩ := reservebook_failure he
      rw [h1, h2]
      exact Or.inl ⟨rfl, fun h => h⟩
    | false =>
      obtain ⟨item, hf, hb, _, hc, hm⟩ := reservebook_success he
      rw [hc, hm]
      left
      refine ⟨rfl, ?_⟩
      by_cases hj : j = isbn
      · subst hj
        intro _ item' hf'
        rw [findbook_modifyBook_same (fun b => b.setBookedBy m.memberId) (fun _ => rfl) hf]
          at hf'
        cases hf'
        exact hb
      · exact absentOrBorrowed_other _ (fun _ => rfl) hj
  | payFees _ amount =>
    exact Or.inl ⟨rfl, fun h => h⟩

theorem loanInvStaff_step {s : LibrarySystem} (a : Action) (h : loanInvStaff s) :
    loanInvStaff (step s a).1 := by
  cases hm : s.memberDatabase[a.member]? with
  | none => rw [step_of_no_member hm]; exact h
  | some m =>
    rw [step_of_member hm]
    intro j
    have hset := totalLoans_set j s.memberDatabase a.member m (a.run s.catalog m).2.1 hm
    have hle := loanCount_le_totalLoans j s.memberDatabase a.member m hm
    obtain ⟨h1, h2⟩ := h j
    simp only
    rcases run_effect_staff s.catalog m a j with ⟨hl, hk⟩ | ⟨hl, hnot, hafter⟩ | hl
    · have heq : totalLoans j (s.memberDatabase.set a.member (a.run s.catalog m).2.1)
          = totalLoans j s.memberDatabase := by omega
      rw [heq]
      exact ⟨h1, fun hge => hk (h2 hge)⟩
    · have hzero : totalLoans j s.memberDatabase = 0 := by
        by_contra hne
        exact hnot (h2 (by omega))
      exact ⟨by omega, fun _ => hafter⟩
    · exact ⟨by omega, fun hge => by omega⟩

theorem loanInvStaff_stepSystem {s : LibrarySystem} (a : SystemAction) (h : loanInvStaff s)
    (hadd : ∀ item, a = .addItem item →
      totalLoans item.isbn s.memberDatabase = 0 ∨
        (findbook s.catalog item.isbn).isSome = true) :
    loanInvStaff (stepSystem s a) := by
  cases a with
  | lending a => exact loanInvStaff_step a h
  | addItem x =>
    intro j
    obtain ⟨h1, h2⟩ := h j
    refine ⟨h1, fun hge => ?_⟩
    have hge2 : 1 ≤ totalLoans j s.memberDatabase := hge
    intro item hfi
    have hfi2 : findbook (addbook s.catalog x) j = some item := hfi
    cases hc : findbook s.catalog j with
    | some prev =>
      rw [findbook_addbook x hc] at hfi2
      cases hfi2
      exact h2 hge2 _ hc
    | none =>
      rw [findbook_addbook_none x hc] at hfi2
      by_cases hx : x.isbn = j
      · rcases hadd x rfl with hz | hs
        · rw [hx] at hz; omega
        · rw [hx, hc] at hs
          exact absurd hs (by decide)
      · rw [if_neg hx] at hfi2
        cases hfi2
  | removeItem isbn =>
    intro j
    obtain ⟨h1, h2⟩ := h j
    refine ⟨h1, fun hge => ?_⟩
    have hge2 : 1 ≤ totalLoans j s.memberDatabase := hge
    intro item hfi
    have hfi2 : findbook (removebook s.catalog isbn) j = some item := hfi
    by_cases hj : j = isbn
    · rw [hj, findbook_removebook_same] at hfi2
      cases hfi2
    · rw [findbook_removebook hj] at hfi2
      exact h2 hge2 item hfi2

theorem loanInvStaff_runSystem {s : LibrarySystem} (calls : List SystemAction)
    (h : loanInvStaff s) (hadd : addsUnlent s calls) : loanInvStaff (runSystem s calls) := by
  induction calls generalizing s with
  | nil => exact h
  | cons a rest ih =>
    cases a with
    | lending a =>
      exact ih (loanInvStaff_stepSystem (.lending a) h (fun _ hc => by cases hc)) hadd
    | removeItem isbn =>
      exact ih (loanInvStaff_stepSystem (.removeItem isbn) h (fun _ hc => by cases hc)) hadd
    | addItem item =>
      refine ih (loanInvStaff_stepSystem (.addItem item) h ?_) hadd.2
      intro x hx
      cases hx
      exact hadd.1

theorem loanInvStaff_initial {s : LibrarySystem} (h : initial s) : loanInvStaff s := by
  intro j
  have h0 := totalLoans_of_empty j s.memberDatabase h.2
  exact ⟨by omega, fun hge => by omega⟩

/-! ## Catalog search -/

theorem findFrom_isSome (needle hay : List Char) (pos : Nat) :
    (findFrom needle hay pos).isSome = true ↔ needle <:+: hay := by
  induction hay generalizing pos with
  | nil =>
    by_cases hn : needle = []
    · simp [findFrom, hn]
    · simp [findFrom, hn, List.infix_nil]
  | cons c rest ih =>
    rw [List.infix_cons_iff]
    by_cases hp : needle.isPrefixOf (c :: rest) = true
    · simp only [findFrom, hp, if_true, Option.isSome_some, true_iff]
      exact Or.inl (List.isPrefixOf_iff_prefix.1 hp)
    · have hnp : ¬ needle <+: c :: rest := fun h => hp (List.isPrefixOf_iff_prefix.2 h)
      have hpf : needle.isPrefixOf (c :: rest) = false := Bool.eq_false_iff.2 hp
      simp only [findFrom, hpf, Bool.false_eq_true, if_false, ih]
      constructor
      · exact fun h => Or.inr h
      · rintro (h | h)
        · exact absurd h hnp
        · exact h

theorem searchMatches_iff (query : String) (item : Book) :
    searchMatches query item = true ↔
      (query.data <:+: item.name.data ∨ query.data <:+: item.creator.data) := by
  simp only [searchMatches, stdFind, Bool.or_eq_true, findFrom_isSome]

theorem search_fold (query : String) (catalog : List Book) (lines : List String) (found : Bool) :
    catalog.foldl
      (fun (acc : List String × Bool) item =>
        if searchMatches query item then (acc.1 ++ [searchLine item], true) else acc)
      (lines, found)
    = (lines ++ ((catalog.filter (searchMatches query)).map searchLine),
       found || !(catalog.filter (searchMatches query)).isEmpty) := by
  induction catalog generalizing lines found with
  | nil => simp
  | cons x rest ih =>
    by_cases hx : searchMatches query x = true
    · simp [List.foldl_cons, hx, ih, List.filter_cons]
    · simp [List.foldl_cons, hx, ih, List.filter_cons]

theorem searchSpec_eq (catalog : List Book) (query : String) :
    searchSpec catalog query = catalog.filter (searchMatches query) := by
  unfold searchSpec
  congr 1
  funext item
  rw [Bool.eq_iff_iff]
  simp [searchMatches_iff]

/-! ## Persistence of catalog records -/

theorem getline_append (delim : Char) (xs rest : List Char) (h : delim ∉ xs) :
    getline delim (xs ++ delim :: rest) = (xs, rest) := by
  induction xs with
  | nil => simp [getline]
  | cons c t ih =>
    have hc : ¬ c = delim := fun e => h (by simp [e])
    have ht : delim ∉ t := fun e => h (List.mem_cons_of_mem _ e)
    simp [getline, hc, ih ht]

theorem getline_end (delim : Char) (xs : List Char) (h : delim ∉ xs) :
    getline delim xs = (xs, []) := by
  induction xs with
  | nil => simp [getline]
  | cons c t ih =>
    have hc : ¬ c = delim := fun e => h (by simp [e])
    have ht : delim ∉ t := fun e => h (List.mem_cons_of_mem _ e)
    simp [getline, hc, ih ht]

theorem digitChar_spec (k : Nat) (hk : k < 10) :
    (Nat.digitChar k).isDigit = true ∧ (Nat.digitChar k).toNat - 48 = k := by
  interval_cases k <;> decide

theorem digitsValue_snoc (pre : List Char) (d : Char) :
    digitsValue (pre ++ [d]) = 10 * digitsValue pre + (d.toNat - 48) := by
  simp [digitsValue, List.foldl_append]

theorem toDigitsCore_spec (fuel n : Nat) (ds : List Char) (h : n < fuel) :
    ∃ pre, Nat.toDigitsCore 10 fuel n ds = pre ++ ds ∧ pre ≠ [] ∧
      (∀ c ∈ pre, c.isDigit = true) ∧ digitsValue pre = n := by
  induction fuel generalizing n ds with
  | zero => omega
  | succ fuel ih =>
    have hd := digitChar_spec (n % 10) (Nat.mod_lt _ (by decide))
    by_cases h0 : n / 10 = 0
    · refine ⟨[Nat.digitChar (n % 10)], ?_, by simp, ?_, ?_⟩
      · simp [Nat.toDigitsCore, h0]
      · intro c hc
        simp at hc
        rw [hc]; exact hd.1
      · have : digitsValue [Nat.digitChar (n % 10)] = (Nat.digitChar (n % 10)).toNat - 48 := by
          simp [digitsValue]
        rw [this, hd.2]
        omega
    · obtain ⟨pre, hpre, _, hdig, hval⟩ :=
        ih (n / 10) (Nat.digitChar (n % 10) :: ds) (by omega)
      refine ⟨pre ++ [Nat.digitChar (n % 10)], ?_, by simp, ?_, ?_⟩
      · simp [Nat.toDigitsCore, h0, hpre]
      · intro c hc
        rcases List.mem_append.1 hc with h1 | h1
        · exact hdig c h1
        · simp at h1
          rw [h1]; exact hd.1
      · rw [digitsValue_snoc, hval, hd.2]
        omega

theorem toDigits_spec (n : Nat) :
    Nat.toDigits 10 n ≠ [] ∧ (∀ c ∈ Nat.toDigits 10 n, c.isDigit = true) ∧
      digitsValue (Nat.toDigits 10 n) = n := by
  obtain ⟨pre, hpre, hne, hdig, hval⟩ := toDigitsCore_spec (n + 1) n [] (by omega)
  have : Nat.toDigits 10 n = pre := by simp [Nat.toDigits, hpre]
  rw [this]
  exact ⟨hne, hdig, hval⟩
theorem isDigit_not_special {c : Char} (h : c.isDigit = true) :
    isspace c = false ∧ c ≠ '-' ∧ c ≠ '+' ∧ c ≠ ',' := by
  refine ⟨?_, ?_, ?_, ?_⟩
  · cases hs : isspace c with
    | false => rfl
    | true =>
      simp only [isspace, Bool.or_eq_true, decide_eq_true_eq] at hs
      rcases hs with ((((hs | hs) | hs) | hs) | hs) | hs <;>
        (rw [hs] at h; exact absurd h (by decide))
  · intro e; rw [e] at h; exact absurd h (by decide)
  · intro e; rw [e] at h; exact absurd h (by decide)
  · intro e; rw [e] at h; exact absurd h (by decide)

theorem stoi_digits {ds : List Char} (hne : ds ≠ []) (hdig : ∀ c ∈ ds, c.isDigit = true)
    (hr : (digitsValue ds : Int) ≤ 2147483647) :
    stoi ds = some (digitsValue ds : Int) := by
  cases ds with
  | nil => exact absurd rfl hne
  | cons c t =>
    obtain ⟨hsp, hm, hp, _⟩ := isDigit_not_special (hdig c (List.mem_cons_self _ _))
    have htake : (c :: t).takeWhile Char.isDigit = c :: t :=
      List.takeWhile_eq_self_iff.2 hdig
    have hnn : (0 : Int) ≤ (digitsValue (c :: t) : Int) := Int.ofNat_nonneg _
    simp only [stoi, List.dropWhile_cons, hsp, Bool.false_eq_true, if_false, hm, hp, htake]
    simp only [reduceCtorEq, if_false]
    rw [if_pos ⟨by omega, hr⟩]

theorem stoi_neg_digits {ds : List Char} (hne : ds ≠ []) (hdig : ∀ c ∈ ds, c.isDigit = true)
    (hr : (digitsValue ds : Int) ≤ 2147483648) :
    stoi ('-' :: ds) = some (-(digitsValue ds : Int)) := by
  have hsp : isspace '-' = false := by decide
  have htake : ds.takeWhile Char.isDigit = ds := List.takeWhile_eq_self_iff.2 hdig
  simp only [stoi, List.dropWhile_cons, hsp, Bool.false_eq_true, if_false, if_true, htake, hne]
  rw [if_pos ⟨by omega, by omega⟩]

theorem stoi_showInt (i : Int) (h1 : -2147483648 ≤ i) (h2 : i ≤ 2147483647) :
    stoi (showInt i) = some i := by
  obtain ⟨hne, hdig, hval⟩ := toDigits_spec i.natAbs
  unfold showInt
  by_cases hneg : i < 0
  · rw [if_pos hneg, stoi_neg_digits hne hdig (by rw [hval]; omega), hval]
    congr 1
    omega
  · rw [if_neg hneg, stoi_digits hne hdig (by rw [hval]; omega), hval]
    congr 1
    omega

theorem showInt_no_comma (i : Int) : ',' ∉ showInt i := by
  obtain ⟨_, hdig, _⟩ := toDigits_spec i.natAbs
  have hd : ',' ∉ Nat.toDigits 10 i.natAbs := by
    intro hmem
    exact (isDigit_not_special (hdig ',' hmem)).2.2.2 rfl
  unfold showInt
  split
  · intro hmem
    rcases List.mem_cons.1 hmem with h | h
    · exact absurd h (by decide)
    · exact hd h
  · exact hd



theorem serialize_data (b : Book) :
    b.serialize.data =
      b.isbn.data ++ ',' :: (b.name.data ++ ',' :: (b.creator.data ++ ',' ::
        (b.company.data ++ ',' :: (showInt b.publicationYear ++ ',' ::
          (b.availability.data ++ ',' :: b.bookedBy.data))))) := by
  simp [Book.serialize, String.data_append, List.append_assoc]

theorem label_no_comma {label : String}
    (h : label = "available" ∨ label = "borrowed" ∨ label = "reserved") :
    ',' ∉ label.data := by
  rcases h with h | h | h <;> (rw [h]; decide)

theorem deserialize_serialize (b : Book)
    (hisbn : ',' ∉ b.isbn.data) (hname : ',' ∉ b.name.data)
    (hcreator : ',' ∉ b.creator.data) (hcompany : ',' ∉ b.company.data)
    (hlabel : b.availability = "available" ∨ b.availability = "borrowed" ∨
      b.availability = "reserved")
    (hholder : '\n' ∉ b.bookedBy.data)
    (hyear : -2147483648 ≤ b.publicationYear ∧ b.publicationYear ≤ 2147483647) :
    Book.deserialize b.serialize = some b := by
  have hav := label_no_comma hlabel
  have hy := showInt_no_comma b.publicationYear
  simp only [Book.deserialize, serialize_data, getline_append _ _ _ hisbn,
    getline_append _ _ _ hname, getline_append _ _ _ hcreator, getline_append _ _ _ hcompany,
    getline_append _ _ _ hy, getline_append _ _ _ hav, getline_end _ _ hholder,
    stoi_showInt _ hyear.1 hyear.2]

/-! ## Checkout -/

/-- C3: `checkout` classifies its outcome in this order: ItemNotFound when no catalog item
has the id; otherwise, for the item the lookup finds, AlreadyBorrowed when it is borrowed;
otherwise ReservedByOther when it is reserved with a holder other than the member;
otherwise NotEligible when the policy rejects; otherwise success. After a successful
checkout of an item, a checkout of the same item by any member fails with
AlreadyBorrowed. -/
theorem checkout_classification (catalog : List Book) (member : Member) (isbn : String)
    (tElig now : Int) :
    ((∀ b ∈ catalog, b.isbn ≠ isbn) →
      (checkoutbook catalog member isbn tElig now).2.2 = .ItemNotFound) ∧
    ((∃ b ∈ catalog, b.isbn = isbn) → ∃ item, findbook catalog isbn = some item) ∧
    (∀ item, findbook catalog isbn = some item →
      (item.availability = "borrowed" →
        (checkoutbook catalog member isbn tElig now).2.2 = .AlreadyBorrowed) ∧
      (item.availability ≠ "borrowed" →
        (item.availability = "reserved" ∧ item.bookedBy ≠ member.memberId) →
        (checkoutbook catalog member isbn tElig now).2.2 = .ReservedByOther) ∧
      (item.availability ≠ "borrowed" →
        ¬ (item.availability = "reserved" ∧ item.bookedBy ≠ member.memberId) →
        member.isEligibleToBorrow tElig = false →
        (checkoutbook catalog member isbn tElig now).2.2 = .NotEligible) ∧
      (item.availability ≠ "borrowed" →
        ¬ (item.availability = "reserved" ∧ item.bookedBy ≠ member.memberId) →
        member.isEligibleToBorrow tElig = true →
        (checkoutbook catalog member isbn tElig now).2.2.isErr = false)) ∧
    ((checkoutbook catalog member isbn tElig now).2.2.isErr = false →
      ∀ (other : Member) (t1 t2 : Int),
        (checkoutbook (checkoutbook catalog member isbn tElig now).1 other isbn t1 t2).2.2
          = .AlreadyBorrowed) := by
  refine ⟨?_, ?_, ?_, ?_⟩
  · intro h
    have hn := (findbook_eq_none_iff catalog isbn).2 h
    simp [checkoutbook, hn]
  · rintro ⟨b, hb, hbi⟩
    cases hf : findbook catalog isbn with
    | some item => exact ⟨item, rfl⟩
    | none => exact absurd hbi ((findbook_eq_none_iff catalog isbn).1 hf b hb)
  · intro item hf
    refine ⟨?_, ?_, ?_, ?_⟩
    · intro h1
      simp [checkoutbook, hf, h1]
    · intro h1 h2
      simp [checkoutbook, hf, h1, h2]
    · intro h1 h2 h3
      simp only [checkoutbook, hf, if_neg h1, if_neg h2, h3, if_true]
    · intro h1 h2 h3
      simp [checkoutbook, hf, h1, h2, h3, Outcome.isErr]
  · intro hok other t1 t2
    cases hf : findbook catalog isbn with
    | none => simp [checkoutbook, hf, Outcome.isErr] at hok
    | some item =>
      by_cases h1 : item.availability = "borrowed"
      · simp [checkoutbook, hf, h1, Outcome.isErr] at hok
      · by_cases h2 : item.availability = "reserved" ∧ item.bookedBy ≠ member.memberId
        · simp [checkoutbook, hf, h1, h2, Outcome.isErr] at hok
        · by_cases h3 : member.isEligibleToBorrow tElig = false
          · simp [checkoutbook, hf, h1, h2, h3, Outcome.isErr] at hok
          · have hc : (checkoutbook catalog member isbn tElig now).1 =
                modifyBook isbn markBorrowed catalog := by
              simp only [checkoutbook, hf, if_neg h1, if_neg h2, if_neg h3]
            have hf2 := findbook_modifyBook_same markBorrowed (fun _ => rfl) hf
            rw [hc, checkoutbook_borrowed other t1 t2 hf2 rfl]

/-- C3, at the default catalog: student STU1 checks out LIT001 and the checkout of LIT001
by STU2 that follows fails with AlreadyBorrowed. -/
theorem checkout_classification_witness :
    (checkoutbook [lit001, lit002] stu1 "LIT001" 0 0).2.2.isErr = false ∧
    (checkoutbook (checkoutbook [lit001, lit002] stu1 "LIT001" 0 0).1 stu2 "LIT001" 1 1).2.2
      = .AlreadyBorrowed :=
  ⟨by decide,
   (checkout_classification [lit001, lit002] stu1 "LIT001" 0 0).2.2.2 (by decide) stu2 1 1⟩

/-- C4: when `checkout` succeeds with the clock reading `now` taken for the loan, the
member's ledger is the previous ledger with the one loan `(isbn, now)` appended, and the
item found under the id is borrowed with an empty holder. -/
theorem checkout_success_effect (catalog : List Book) (member : Member) (isbn : String)
    (tElig now : Int)
    (h : (checkoutbook catalog member isbn tElig now).2.2.isErr = false) :
    (checkoutbook catalog member isbn tElig now).2.1.membership =
      { member.membership with
        checkedOutItems := member.membership.checkedOutItems ++ [⟨isbn, now⟩] } ∧
    ∃ item, findbook (checkoutbook catalog member isbn tElig now).1 isbn = some item ∧
      item.availability = "borrowed" ∧ item.bookedBy = "" := by
  cases hf : findbook catalog isbn with
  | none => simp [checkoutbook, hf, Outcome.isErr] at h
  | some item =>
    by_cases h1 : item.availability = "borrowed"
    · simp [checkoutbook, hf, h1, Outcome.isErr] at h
    · by_cases h2 : item.availability = "reserved" ∧ item.bookedBy ≠ member.memberId
      · simp [checkoutbook, hf, h1, h2, Outcome.isErr] at h
      · by_cases h3 : member.isEligibleToBorrow tElig = false
        · simp [checkoutbook, hf, h1, h2, h3, Outcome.isErr] at h
        · have hf2 := findbook_modifyBook_same markBorrowed (fun _ => rfl) hf
          simp only [checkoutbook, hf, if_neg h1, if_neg h2, if_neg h3]
          refine ⟨rfl, _, hf2, rfl, rfl⟩

/-- C4, at the default catalog: STU1 checks out LIT001 at clock reading 7. -/
theorem checkout_success_effect_witness :
    (checkoutbook [lit001, lit002] stu1 "LIT001" 7 7).2.1.membership =
      { stu1.membership with
        checkedOutItems := stu1.membership.checkedOutItems ++ [⟨"LIT001", 7⟩] } ∧
    ∃ item, findbook (checkoutbook [lit001, lit002] stu1 "LIT001" 7 7).1 "LIT001" = some item ∧
      item.availability = "borrowed" ∧ item.bookedBy = "" :=
  checkout_success_effect [lit001, lit002] stu1 "LIT001" 7 7 (by decide)

/-! ## Return -/

/-- C5: `returnItem` classifies its failures in this order: ItemNotFound when no catalog
item has the id; otherwise NotBorrowed when the item found is not borrowed; otherwise
NoSuchLoan when the member's ledger has no loan of the id; otherwise success. A member
whose ledger has no loan of the item can never return it. -/
theorem return_classification (catalog : List Book) (member : Member) (isbn : String)
    (currentTime : Int) :
    ((∀ b ∈ catalog, b.isbn ≠ isbn) →
      (returnbook catalog member isbn currentTime).2.2 = .ItemNotFound) ∧
    ((∃ b ∈ catalog, b.isbn = isbn) → ∃ item, findbook catalog isbn = some item) ∧
    (∀ item, findbook catalog isbn = some item →
      (item.availability ≠ "borrowed" →
        (returnbook catalog member isbn currentTime).2.2 = .NotBorrowed) ∧
      (item.availability = "borrowed" →
        (∀ info ∈ member.membership.checkedOutItems, info.isbn ≠ isbn) →
        (returnbook catalog member isbn currentTime).2.2 = .NoSuchLoan) ∧
      (item.availability = "borrowed" →
        (∃ info ∈ member.membership.checkedOutItems, info.isbn = isbn) →
        (returnbook catalog member isbn currentTime).2.2.isErr = false)) ∧
    ((∀ info ∈ member.membership.checkedOutItems, info.isbn ≠ isbn) →
      (returnbook catalog member isbn currentTime).2.2.isErr = true) := by
  refine ⟨?_, findbook_of_exists, ?_, ?_⟩
  · intro h
    simp [returnbook, (findbook_eq_none_iff catalog isbn).2 h]
  · intro item hf
    refine ⟨?_, ?_, ?_⟩
    · intro h1
      simp [returnbook, hf, h1]
    · intro h1 h2
      simp [returnbook, hf, h1, (find_loan_eq_none_iff _ isbn).2 h2]
    · intro h1 h2
      cases hl : member.membership.checkedOutItems.find? (fun info => decide (info.isbn = isbn)) with
      | none =>
        obtain ⟨info, hi, hii⟩ := h2
        exact absurd hii ((find_loan_eq_none_iff _ isbn).1 hl info hi)
      | some it => simp [returnbook, hf, h1, hl, Outcome.isErr]
  · intro h2
    have hl := (find_loan_eq_none_iff _ isbn).2 h2
    cases hf : findbook catalog isbn with
    | none => simp [returnbook, hf, Outcome.isErr]
    | some item =>
      by_cases h1 : item.availability = "borrowed"
      · simp [returnbook, hf, h1, hl, Outcome.isErr]
      · simp [returnbook, hf, h1, Outcome.isErr]

/-- C5, at the default catalog: STU2, who holds nothing, cannot return LIT001. -/
theorem return_classification_witness :
    (returnbook (checkoutbook [lit001, lit002] stu1 "LIT001" 0 0).1 stu2 "LIT001" 5).2.2.isErr
      = true :=
  (return_classification (checkoutbook [lit001, lit002] stu1 "LIT001" 0 0).1 stu2 "LIT001"
    5).2.2.2 (by decide)

/-- C7: when `returnItem` succeeds, the member's ledger loses exactly one loan of the id
(its first one; every other loan stays, in order), the holder of the item found under the
id is unchanged, and its availability is reserved when the holder is non-empty and
available when it is empty. -/
theorem return_success_effect (catalog : List Book) (member : Member) (isbn : String)
    (currentTime : Int)
    (h : (returnbook catalog member isbn currentTime).2.2.isErr = false) :
    (∃ before loan after,
      member.membership.checkedOutItems = before ++ loan :: after ∧
      loan.isbn = isbn ∧ (∀ x ∈ before, x.isbn ≠ isbn) ∧
      (returnbook catalog member isbn currentTime).2.1.membership.checkedOutItems
        = before ++ after) ∧
    (∃ item item', findbook catalog isbn = some item ∧
      findbook (returnbook catalog member isbn currentTime).1 isbn = some item' ∧
      item'.bookedBy = item.bookedBy ∧
      (item.bookedBy ≠ "" → item'.availability = "reserved") ∧
      (item.bookedBy = "" → item'.availability = "available")) := by
  obtain ⟨item, it, hf, _, hl, hr⟩ := returnbook_success h
  rw [hr]
  constructor
  · have hmem := List.mem_of_find?_eq_some hl
    have hp := List.find?_some hl
    obtain ⟨loan, before, after, hb, hpl, hsplit, herase⟩ :=
      List.exists_of_eraseP (p := fun info => decide (info.isbn = isbn)) hmem hp
    refine ⟨before, loan, after, hsplit, by simpa using hpl, ?_, ?_⟩
    · intro x hx; simpa using hb x hx
    · simp [Membership.returnItem, hl, herase]
  · refine ⟨item, markReturned item, hf,
      findbook_modifyBook_same markReturned (fun _ => rfl) hf, rfl, ?_, ?_⟩
    · intro hne; simp [markReturned, Book.setAvailability, hne]
    · intro he; simp [markReturned, Book.setAvailability, he]

/-- C7, at the default catalog: STU1 checks out LIT001 and returns it. -/
theorem return_success_effect_witness :
    (∃ before loan after,
      (checkoutbook [lit001, lit002] stu1 "LIT001" 0 0).2.1.membership.checkedOutItems
        = before ++ loan :: after ∧
      loan.isbn = "LIT001" ∧ (∀ x ∈ before, x.isbn ≠ "LIT001") ∧
      (returnbook (checkoutbook [lit001, lit002] stu1 "LIT001" 0 0).1
        (checkoutbook [lit001, lit002] stu1 "LIT001" 0 0).2.1 "LIT001"
        5).2.1.membership.checkedOutItems = before ++ after) ∧
    (∃ item item',
      findbook (checkoutbook [lit001, lit002] stu1 "LIT001" 0 0).1 "LIT001" = some item ∧
      findbook (returnbook (checkoutbook [lit001, lit002] stu1 "LIT001" 0 0).1
        (checkoutbook [lit001, lit002] stu1 "LIT001" 0 0).2.1 "LIT001" 5).1 "LIT001"
        = some item' ∧
      item'.bookedBy = item.bookedBy ∧
      (item.bookedBy ≠ "" → item'.availability = "reserved") ∧
      (item.bookedBy = "" → item'.availability = "available")) :=
  return_success_effect (checkoutbook [lit001, lit002] stu1 "LIT001" 0 0).1
    (checkoutbook [lit001, lit002] stu1 "LIT001" 0 0).2.1 "LIT001" 5 (by decide)

/-! ## Reserve -/

/-- C8: `reserve` fails with ItemNotFound when no catalog item has the id; otherwise with
NotBorrowed when the item found is not borrowed; otherwise with AlreadyReserved when its
holder is non-empty; otherwise it succeeds: the holder becomes the member's id, the
availability stays borrowed, every other field of the item and the member's ledger are
unchanged. -/
theorem reserve_spec (catalog : List Book) (member : Member) (isbn : String) :
    ((∀ b ∈ catalog, b.isbn ≠ isbn) →
      (reservebook catalog member isbn).2.2 = .ItemNotFound) ∧
    ((∃ b ∈ catalog, b.isbn = isbn) → ∃ item, findbook catalog isbn = some item) ∧
    (∀ item, findbook catalog isbn = some item →
      (item.availability ≠ "borrowed" →
        (reservebook catalog member isbn).2.2 = .NotBorrowed) ∧
      (item.availability = "borrowed" → item.bookedBy ≠ "" →
        (reservebook catalog member isbn).2.2 = .AlreadyReserved) ∧
      (item.availability = "borrowed" → item.bookedBy = "" →
        (reservebook catalog member isbn).2.2 = .reserved ∧
        findbook (reservebook catalog member isbn).1 isbn
          = some { item with bookedBy := member.memberId } ∧
        ({ item with bookedBy := member.memberId } : Book).availability = "borrowed" ∧
        (reservebook catalog member isbn).2.1 = member)) := by
  refine ⟨?_, findbook_of_exists, ?_⟩
  · intro h
    simp [reservebook, (findbook_eq_none_iff catalog isbn).2 h]
  · intro item hf
    refine ⟨?_, ?_, ?_⟩
    · intro h1
      simp [reservebook, hf, h1]
    · intro h1 h2
      simp [reservebook, hf, h1, h2]
    · intro h1 h2
      have hf2 := findbook_modifyBook_same (fun b => b.setBookedBy member.memberId)
        (fun _ => rfl) hf
      have hr : reservebook catalog member isbn =
          (modifyBook isbn (fun b => b.setBookedBy member.memberId) catalog, member,
            .reserved) := by
        simp [reservebook, hf, h1, h2]
      rw [hr]
      exact ⟨rfl, hf2, h1, rfl⟩

/-- C8, at the default catalog: LIT001 is borrowed by STU1 and then reserved by STU2. -/
theorem reserve_spec_witness :
    (reservebook (checkoutbook [lit001, lit002] stu1 "LIT001" 0 0).1 stu2 "LIT001").2.2
      = .reserved ∧
    findbook (reservebook (checkoutbook [lit001, lit002] stu1 "LIT001" 0 0).1 stu2 "LIT001").1
      "LIT001" = some { markBorrowed lit001 with bookedBy := stu2.memberId } ∧
    ({ markBorrowed lit001 with bookedBy := stu2.memberId } : Book).availability = "borrowed" ∧
    (reservebook (checkoutbook [lit001, lit002] stu1 "LIT001" 0 0).1 stu2 "LIT001").2.1 = stu2 :=
  ((reserve_spec (checkoutbook [lit001, lit002] stu1 "LIT001" 0 0).1 stu2 "LIT001").2.2
    (markBorrowed lit001) (by decide)).2.2 (by decide) (by decide)

/-! ## Late fees -/

/-- C9, as stated, fails: after STU1 has borrowed LIT001 and STU2 has reserved it, the item
is still borrowed with holder STU2, and the checkout by STU3 is answered AlreadyBorrowed,
not ReservedByOther. -/
theorem checkout_of_reserved_item_counterexample :
    (step (step sys0 (.checkout 0 "LIT001" 0 0)).1 (.reserve 1 "LIT001")).2 = .reserved ∧
    findbook sysReserved.catalog "LIT001"
      = some { lit001 with availability := "borrowed", bookedBy := "STU2" } ∧
    sysReserved.memberDatabase[2]? = some stu3 ∧ stu3.memberId ≠ "STU2" ∧
    (step sysReserved (.checkout 2 "LIT001" 1 1)).2 = .AlreadyBorrowed ∧
    (step sysReserved (.checkout 2 "LIT001" 1 1)).2 ≠ .ReservedByOther := by
  decide

/-- C9, amended: when the item found under the id carries a reservation for a holder
other than the member, the member's checkout fails with AlreadyBorrowed while the item is
borrowed, and with ReservedByOther once it is reserved; the state is unchanged. -/
theorem checkout_of_reserved_item (catalog : List Book) (item : Book) (member : Member)
    (isbn holder : String) (tElig now : Int)
    (hf : findbook catalog isbn = some item) (hh : item.bookedBy = holder)
    (hne : member.memberId ≠ holder) :
    (item.availability = "borrowed" →
      checkoutbook catalog member isbn tElig now = (catalog, member, .AlreadyBorrowed)) ∧
    (item.availability = "reserved" →
      checkoutbook catalog member isbn tElig now = (catalog, member, .ReservedByOther)) := by
  constructor
  · intro hb
    exact checkoutbook_borrowed member tElig now hf hb
  · intro hr
    have h1 : ¬ item.availability = "borrowed" := by rw [hr]; decide
    have h2 : item.bookedBy ≠ member.memberId := by
      rw [hh]; exact fun h => hne h.symm
    simp [checkoutbook, hf, h1, hr, h2]

/-- C9 amended, at the default catalog: with LIT001 borrowed by STU1 and reserved by STU2,
the checkout by STU3 is answered AlreadyBorrowed. -/
theorem checkout_of_reserved_item_witness :
    checkoutbook sysReserved.catalog stu3 "LIT001" 1 1
      = (sysReserved.catalog, stu3, .AlreadyBorrowed) :=
  (checkout_of_reserved_item sysReserved.catalog
    { lit001 with availability := "borrowed", bookedBy := "STU2" } stu3 "LIT001" "STU2" 1 1
    (by decide) (by decide) (by decide)).1 (by decide)

/-! ## Invariants -/

/-- C1: the holderRef invariant (reserved implies a non-empty holder, available implies an
empty holder, for every catalog item) is preserved by `checkout`, `returnItem` and
`reserve`, for every member and item id, whether the call succeeds or fails; and so by
every call on the system. -/
theorem holderInv_preserved (catalog : List Book) (h : holderInv catalog) :
    (∀ (member : Member) (isbn : String) (tElig now : Int),
      holderInv (checkoutbook catalog member isbn tElig now).1) ∧
    (∀ (member : Member) (isbn : String) (currentTime : Int),
      holderInv (returnbook catalog member isbn currentTime).1) ∧
    (∀ (member : Member) (isbn : String),
      holderInv (reservebook catalog member isbn).1) ∧
    (∀ (members : List Member) (a : Action),
      holderInv (step ⟨catalog, members⟩ a).1.catalog) := by
  refine ⟨fun m i t n => holderInv_checkoutbook m i t n h,
    fun m i t => holderInv_returnbook m i t h,
    fun m i => holderInv_reservebook m i h, ?_⟩
  intro members a
  rcases step_catalog ⟨catalog, members⟩ a with hc | ⟨m, _, hc⟩
  · rw [hc]; exact h
  · rw [hc]; exact holderInv_run m a h

/-- C1, at the default catalog with LIT001 borrowed and reserved: the invariant holds
before and after STU1 returns the item. -/
theorem holderInv_preserved_witness :
    holderInv sysReserved.catalog ∧
    holderInv (returnbook sysReserved.catalog stu1Holding "LIT001" 5).1 :=
  ⟨by decide, (holderInv_preserved sysReserved.catalog (by decide)).2.1 stu1Holding "LIT001" 5⟩

/-- C2: from an initial state (all items available, all ledgers empty), after any sequence
of `checkout`, `returnItem`, `reserve` and `payFees` calls, every ISBN occurs in at most
one active loan over all the ledgers of the roster. -/
theorem no_double_lending (s : LibrarySystem) (h : initial s) (calls : List Action)
    (isbn : String) :
    totalLoans isbn (runAll s calls).memberDatabase ≤ 1 :=
  (loanInv_runAll calls (loanInv_initial h) isbn).1

/-- C2, at the default system: after STU1 and STU2 both ask for LIT001, and STU1 returns
it and STU2 asks again, LIT001 is on loan at most once. -/
theorem no_double_lending_witness :
    totalLoans "LIT001"
      (runAll sys0 [.checkout 0 "LIT001" 0 0, .checkout 1 "LIT001" 1 1,
        .returnItem 0 "LIT001" 2, .checkout 1 "LIT001" 3 3]).memberDatabase ≤ 1 :=
  no_double_lending sys0 (by decide)
    [.checkout 0 "LIT001" 0 0, .checkout 1 "LIT001" 1 1, .returnItem 0 "LIT001" 2,
      .checkout 1 "LIT001" 3 3] "LIT001"

/-- C10: in a state satisfying the holderRef invariant where the item found under the id
(its availability one of the three labels) has the non-empty holder `holder`, along any
sequence of `checkout`, `returnItem`, `reserve` and `payFees` calls without a successful
checkout of the item, the item keeps the holder `holder`, and a successful checkout of
the item made next (the first one) is made by a member whose id is `holder`. -/
theorem reservation_honoured (s : LibrarySystem) (isbn holder : String) (item : Book)
    (hinv : holderInv s.catalog)
    (hlabel : item.availability = "available" ∨ item.availability = "borrowed" ∨
      item.availability = "reserved")
    (hf : findbook s.catalog isbn = some item) (hh : item.bookedBy = holder)
    (hne : holder ≠ "") (calls : List Action) (hno : noCheckoutYet isbn s calls) :
    (∃ item', findbook (runAll s calls).catalog isbn = some item' ∧
      item'.bookedBy = holder) ∧
    (∀ (member : Nat) (tElig now : Int),
      (step (runAll s calls) (.checkout member isbn tElig now)).2.isErr = false →
      ∃ m, (runAll s calls).memberDatabase[member]? = some m ∧ m.memberId = holder) := by
  have h0 : heldFor isbn holder s.catalog := by
    refine ⟨item, hf, hh, ?_⟩
    rcases hlabel with ha | hb | hr
    · have := (hinv item (findbook_some_mem hf).1).2 ha
      exact absurd (hh.symm.trans this) hne
    · exact Or.inl hb
    · exact Or.inr hr
  have hrun := heldFor_runAll calls hne h0 hno
  constructor
  · obtain ⟨item', hf', hh', _⟩ := hrun
    exact ⟨item', hf', hh'⟩
  · intro member tElig now hok
    cases hm : (runAll s calls).memberDatabase[member]? with
    | none =>
      have hm2 : (runAll s calls).memberDatabase[(Action.checkout member isbn tElig now).member]?
          = none := hm
      rw [step_of_no_member hm2] at hok
      simp [Outcome.isErr] at hok
    | some m =>
      have hm2 : (runAll s calls).memberDatabase[(Action.checkout member isbn tElig now).member]?
          = some m := hm
      rw [step_of_member hm2] at hok
      exact ⟨m, rfl, heldFor_checkout hrun hok⟩

/-- C10, at the default system with LIT001 borrowed by STU1 and reserved by STU2: STU3 asks
for the item in vain, STU1 returns it, the holder is still STU2, and the checkout that
then succeeds, from roster position 1, is the one of STU2. -/
theorem reservation_honoured_witness :
    (∃ item', findbook (runAll sysReserved
        [.checkout 2 "LIT001" 1 1, .returnItem 0 "LIT001" 2]).catalog "LIT001" = some item' ∧
      item'.bookedBy = "STU2") ∧
    (∃ m, (runAll sysReserved
        [.checkout 2 "LIT001" 1 1, .returnItem 0 "LIT001" 2]).memberDatabase[1]? = some m ∧
      m.memberId = "STU2") :=
  ⟨(reservation_honoured sysReserved "LIT001" "STU2"
      { lit001 with availability := "borrowed", bookedBy := "STU2" }
      (by decide) (by decide) (by decide) (by decide) (by decide)
      [.checkout 2 "LIT001" 1 1, .returnItem 0 "LIT001" 2] (by decide)).1,
   (reservation_honoured sysReserved "LIT001" "STU2"
      { lit001 with availability := "borrowed", bookedBy := "STU2" }
      (by decide) (by decide) (by decide) (by decide) (by decide)
      [.checkout 2 "LIT001" 1 1, .returnItem 0 "LIT001" 2] (by decide)).2 1 3 3 (by decide)⟩

/-! ## Eligibility policy -/

/-- C11: a student is eligible to borrow exactly when the ledger has fewer than 3 active
loans and `pendingFees` is 0; so a student with `pendingFees > 0` is never eligible,
whatever the loan count. -/
theorem student_eligibility (m : Member) (currentTime : Int)
    (hk : m.kind = .CollegeStudent) :
    (m.isEligibleToBorrow currentTime = true ↔
      m.membership.checkedOutItems.length < 3 ∧ m.membership.pendingFees = 0) ∧
    (0 < m.membership.pendingFees → m.isEligibleToBorrow currentTime = false) := by
  constructor
  · simp [Member.isEligibleToBorrow, hk]
  · intro hpos
    have hne : ¬ m.membership.pendingFees = 0 := ne_of_gt hpos
    simp [Member.isEligibleToBorrow, hk, hne]

/-- C11, for a student of the default roster who owes 50 and holds nothing. -/
theorem student_eligibility_witness :
    (stu1Owing.isEligibleToBorrow 0 = true ↔
      stu1Owing.membership.checkedOutItems.length < 3 ∧ stu1Owing.membership.pendingFees = 0) ∧
    (0 < stu1Owing.membership.pendingFees → stu1Owing.isEligibleToBorrow 0 = false) :=
  student_eligibility stu1Owing 0 (by decide)

/-- C12: for a faculty member and a clock reading `now` not earlier than any checkout
timestamp of the ledger (each difference a representable 64-bit duration), eligibility
holds exactly when there are fewer than 5 active loans and no loan is older than 90 days,
the age being `floor (hours (now - checkoutDate) / 24)`. A faculty member with 5 active
loans, or with one loan aged 91 days, gets NotEligible on an available item. -/
theorem faculty_eligibility :
    (∀ (m : Member) (now : Int), m.kind = .professor →
      (∀ loan ∈ m.membership.checkedOutItems,
        loan.checkoutDate ≤ now ∧ now - loan.checkoutDate < 9223372036854775808) →
      (m.isEligibleToBorrow now = true ↔
        m.membership.checkedOutItems.length < 5 ∧
        ∀ loan ∈ m.membership.checkedOutItems,
          ¬ ((now - loan.checkoutDate) / ticksPerHour / 24 > 90))) ∧
    (∀ (m : Member) (catalog : List Book) (isbn : String) (item : Book) (tElig now : Int),
      m.kind = .professor → findbook catalog isbn = some item →
      item.availability = "available" → m.membership.checkedOutItems.length = 5 →
      checkoutbook catalog m isbn tElig now = (catalog, m, .NotEligible)) ∧
    (∀ (m : Member) (catalog : List Book) (isbn : String) (item : Book) (tElig now : Int)
      (loan : BorrowInfo),
      m.kind = .professor → findbook catalog isbn = some item →
      item.availability = "available" → loan ∈ m.membership.checkedOutItems →
      (tElig - loan.checkoutDate) / ticksPerHour / 24 = 91 →
      checkoutbook catalog m isbn tElig now = (catalog, m, .NotEligible)) := by
  refine ⟨?_, ?_, ?_⟩
  · intro m now hk htime
    have hdays : ∀ loan ∈ m.membership.checkedOutItems,
        daysSinceCheckout now loan.checkoutDate
          = (now - loan.checkoutDate) / ticksPerHour / 24 :=
      fun loan hl => (daysSinceCheckout_eq (htime loan hl).1 (htime loan hl).2).1
    by_cases h5 : m.membership.checkedOutItems.length ≥ 5
    · have : ¬ m.membership.checkedOutItems.length < 5 := by omega
      simp [Member.isEligibleToBorrow, hk, h5, this]
    · have hlt : m.membership.checkedOutItems.length < 5 := by omega
      simp only [Member.isEligibleToBorrow, hk, h5, if_false, Bool.not_eq_true',
        List.any_eq_false, decide_eq_true_eq, hlt, true_and]
      constructor
      · intro h loan hl
        rw [← hdays loan hl]
        exact h loan hl
      · intro h loan hl
        rw [hdays loan hl]
        exact h loan hl
  · intro m catalog isbn item tElig now hk hf ha h5
    have he : m.isEligibleToBorrow tElig = false := by
      simp [Member.isEligibleToBorrow, hk, h5]
    exact checkoutbook_available_ineligible m tElig now hf ha he
  · intro m catalog isbn item tElig now loan hk hf ha hl h91
    have hd : daysSinceCheckout tElig loan.checkoutDate = 91 :=
      daysSinceCheckout_of_days (by decide) (by decide) h91
    have he : m.isEligibleToBorrow tElig = false := by
      by_cases h5 : m.membership.checkedOutItems.length ≥ 5
      · simp [Member.isEligibleToBorrow, hk, h5]
      · simp only [Member.isEligibleToBorrow, hk, h5, if_false, Bool.not_eq_false',
          List.any_eq_true, decide_eq_true_eq]
        exact ⟨loan, hl, by rw [hd]; decide⟩
    exact checkoutbook_available_ineligible m tElig now hf ha he

/-- C12, for a professor holding LIT002 since clock reading 0: 91 days later the checkout
of the available LIT001 is answered NotEligible. -/
theorem faculty_eligibility_witness :
    checkoutbook [lit001, lit002] prof1Holding "LIT001" 7862400000000000 7862400000000000
      = ([lit001, lit002], prof1Holding, .NotEligible) :=
  faculty_eligibility.2.2 prof1Holding [lit001, lit002] "LIT001" lit001
    7862400000000000 7862400000000000 ⟨"LIT002", 0⟩
    (by decide) (by decide) (by decide) (by decide) (by decide)

/-- C13: a staff member is never eligible, and every `checkout` by a staff member returns
an error and leaves the catalog and the member (so the ledger) unchanged; on the system,
roster and catalog are the same after the call. -/
theorem staff_never_borrow (m : Member) (hk : m.kind = .LibraryStaff) :
    (∀ currentTime : Int, m.isEligibleToBorrow currentTime = false) ∧
    (∀ (catalog : List Book) (isbn : String) (tElig now : Int),
      (checkoutbook catalog m isbn tElig now).2.2.isErr = true ∧
      (checkoutbook catalog m isbn tElig now).1 = catalog ∧
      (checkoutbook catalog m isbn tElig now).2.1 = m) ∧
    (∀ (s : LibrarySystem) (member : Nat) (isbn : String) (tElig now : Int),
      s.memberDatabase[member]? = some m →
      (step s (.checkout member isbn tElig now)).2.isErr = true ∧
      (step s (.checkout member isbn tElig now)).1 = s) := by
  have helig : ∀ currentTime : Int, m.isEligibleToBorrow currentTime = false := by
    intro currentTime
    simp [Member.isEligibleToBorrow, hk]
  have herr : ∀ (catalog : List Book) (isbn : String) (tElig now : Int),
      (checkoutbook catalog m isbn tElig now).2.2.isErr = true := by
    intro catalog isbn tElig now
    cases he : (checkoutbook catalog m isbn tElig now).2.2.isErr with
    | true => rfl
    | false =>
      obtain ⟨_, _, _, _, hel, _, _⟩ := checkoutbook_success he
      rw [helig tElig] at hel
      exact absurd hel (by decide)
  refine ⟨helig, ?_, ?_⟩
  · intro catalog isbn tElig now
    exact ⟨herr catalog isbn tElig now, checkoutbook_failure (herr catalog isbn tElig now)⟩
  · intro s member isbn tElig now hm
    have hm2 : s.memberDatabase[(Action.checkout member isbn tElig now).member]? = some m := hm
    have hE : (step s (.checkout member isbn tElig now)).2.isErr = true := by
      rw [step_of_member hm2]
      exact herr s.catalog isbn tElig now
    exact ⟨hE, step_failure hE⟩

/-- C13, for the librarian of the default roster asking for the available LIT001. -/
theorem staff_never_borrow_witness :
    (checkoutbook [lit001, lit002] staff1 "LIT001" 0 0).2.2.isErr = true ∧
    (checkoutbook [lit001, lit002] staff1 "LIT001" 0 0).1 = [lit001, lit002] ∧
    (checkoutbook [lit001, lit002] staff1 "LIT001" 0 0).2.1 = staff1 :=
  (staff_never_borrow staff1 (by decide)).2.1 [lit001, lit002] "LIT001" 0 0

/-- C14: the faculty late fee is 0 for every `daysLate ≥ 0`, and every successful
`returnItem` by a faculty member, whatever the clock readings, reports the fee 0 and
leaves the member's `pendingFees` unchanged. -/
theorem faculty_never_charged (m : Member) (hk : m.kind = .professor) :
    (∀ daysLate : Int, 0 ≤ daysLate → m.calculateLateFee daysLate = 0) ∧
    (∀ (catalog : List Book) (isbn : String) (currentTime : Int),
      (returnbook catalog m isbn currentTime).2.2.isErr = false →
      (returnbook catalog m isbn currentTime).2.2 = .returned 0 ∧
      (returnbook catalog m isbn currentTime).2.1.membership.pendingFees
        = m.membership.pendingFees) := by
  have hfee : ∀ daysLate : Int, m.calculateLateFee daysLate = 0 := by
    intro daysLate
    simp [Member.calculateLateFee, hk]
  refine ⟨fun d _ => hfee d, ?_⟩
  intro catalog isbn currentTime hok
  obtain ⟨item, it, _, _, hl, hr⟩ := returnbook_success hok
  have hzero : returnFee m currentTime it.checkoutDate = 0 := hfee _
  rw [hr, hzero]
  exact ⟨rfl, by simp [Membership.returnItem, hl]⟩

/-- C14, for a professor returning LIT002 two hundred days after checking it out. -/
theorem faculty_never_charged_witness :
    (returnbook [markBorrowed lit002] prof1Holding "LIT002" 17280000000000000).2.2
      = .returned 0 ∧
    (returnbook [markBorrowed lit002] prof1Holding "LIT002"
      17280000000000000).2.1.membership.pendingFees = prof1Holding.membership.pendingFees :=
  (faculty_never_charged prof1Holding (by decide)).2 [markBorrowed lit002] "LIT002"
    17280000000000000 (by decide)

/-! ## Fee settlement -/

/-- C20: whenever `checkout`, `returnItem` or `reserve` returns an error, the catalog and
the calling member are what they were before the call, and the whole system state (every
item, every ledger) is identical. -/
theorem failure_is_atomic :
    (∀ (catalog : List Book) (m : Member) (isbn : String) (tElig now : Int),
      (checkoutbook catalog m isbn tElig now).2.2.isErr = true →
      (checkoutbook catalog m isbn tElig now).1 = catalog ∧
      (checkoutbook catalog m isbn tElig now).2.1 = m) ∧
    (∀ (catalog : List Book) (m : Member) (isbn : String) (currentTime : Int),
      (returnbook catalog m isbn currentTime).2.2.isErr = true →
      (returnbook catalog m isbn currentTime).1 = catalog ∧
      (returnbook catalog m isbn currentTime).2.1 = m) ∧
    (∀ (catalog : List Book) (m : Member) (isbn : String),
      (reservebook catalog m isbn).2.2.isErr = true →
      (reservebook catalog m isbn).1 = catalog ∧
      (reservebook catalog m isbn).2.1 = m) ∧
    (∀ (s : LibrarySystem) (a : Action), (step s a).2.isErr = true → (step s a).1 = s) :=
  ⟨fun _ _ _ _ _ h => checkoutbook_failure h, fun _ _ _ _ h => returnbook_failure h,
    fun _ _ _ h => reservebook_failure h, fun _ _ h => step_failure h⟩

/-- C20, at the default system: STU2 asks for LIT001 while STU1 holds it, and nothing
changes. -/
theorem failure_is_atomic_witness :
    (step (step sys0 (.checkout 0 "LIT001" 0 0)).1 (.checkout 1 "LIT001" 1 1)).1
      = (step sys0 (.checkout 0 "LIT001" 0 0)).1 :=
  failure_is_atomic.2.2.2 (step sys0 (.checkout 0 "LIT001" 0 0)).1 (.checkout 1 "LIT001" 1 1)
    (by decide)

/-! ## Fees -/

/-- C15: for a member with `pendingFees ≥ 0` (ledger timestamps and clock readings being
64-bit tick counts), after any `checkout`, `returnItem` or `reserve` call by any member,
succeeding or failing, that member's `pendingFees` is at least what it was, and after any
call, `payFees` included, it is still `≥ 0`. -/
theorem pendingFees_monotone (s : LibrarySystem) (a : Action) (i : Nat) (m : Member)
    (hm : s.memberDatabase[i]? = some m) (h0 : 0 ≤ m.membership.pendingFees)
    (hclock : ∀ t ∈ a.clocks, isTimePoint t)
    (hledger : ∀ loan ∈ m.membership.checkedOutItems, isTimePoint loan.checkoutDate) :
    ∃ m', (step s a).1.memberDatabase[i]? = some m' ∧
      0 ≤ m'.membership.pendingFees ∧
      (a.isPayFees = false → m.membership.pendingFees ≤ m'.membership.pendingFees) := by
  rcases step_member_at s a i m hm with h | ⟨_, h⟩
  · exact ⟨m, h, h0, fun _ => le_refl _⟩
  · exact ⟨_, h, run_pendingFees s.catalog m a h0 hclock hledger⟩

/-- C15, at the default system: STU1 returns LIT001 twenty days late; the balance, 0
before, is not lower afterwards. -/
theorem pendingFees_monotone_witness :
    ∃ m', (step (step sys0 (.checkout 0 "LIT001" 0 0)).1
        (.returnItem 0 "LIT001" 1728000000000000)).1.memberDatabase[0]? = some m' ∧
      0 ≤ m'.membership.pendingFees ∧
      ((Action.returnItem 0 "LIT001" 1728000000000000).isPayFees = false →
        stu1Holding.membership.pendingFees ≤ m'.membership.pendingFees) :=
  pendingFees_monotone (step sys0 (.checkout 0 "LIT001" 0 0)).1
    (.returnItem 0 "LIT001" 1728000000000000) 0 stu1Holding (by decide) (le_refl 0)
    (by decide) (by decide)

/-! ## Reservation count -/

/-- C16: in a state satisfying the holderRef invariant, when `checkout` succeeds on an
item that was reserved with the member's id as holder, the number of catalog items whose
holder is the member's id is one less after the call than before, and this new number is
the remaining reservation count the call reports. -/
theorem reservation_count_decreases (catalog : List Book) (member : Member) (isbn : String)
    (item : Book) (tElig now : Int) (hinv : holderInv catalog)
    (hf : findbook catalog isbn = some item) (hr : item.availability = "reserved")
    (hb : item.bookedBy = member.memberId)
    (hok : (checkoutbook catalog member isbn tElig now).2.2.isErr = false) :
    getReservationCount (checkoutbook catalog member isbn tElig now).1 member.memberId + 1
      = getReservationCount catalog member.memberId ∧
    (checkoutbook catalog member isbn tElig now).2.2
      = .checkedOut
          (some (getReservationCount (checkoutbook catalog member isbn tElig now).1
            member.memberId)) := by
  have hne : member.memberId ≠ "" := by
    rw [← hb]
    exact (hinv item (findbook_some_mem hf).1).1 hr
  obtain ⟨item2, hf2, hres⟩ := checkoutbook_result hok
  rw [hf] at hf2
  cases hf2
  rw [hres]
  constructor
  · unfold getReservationCount
    refine countP_modifyBook_drop _ markBorrowed hf (by simp [hb]) ?_
    have : ¬ ("" : String) = member.memberId := fun h => hne h.symm
    simp [markBorrowed, Book.setAvailability, Book.setBookedBy, this]
  · simp [hr, hb]

/-- C16, at the default system with LIT001 reserved for STU2: STU2 checks it out and the
reservation count of STU2 goes from 1 to 0. -/
theorem reservation_count_decreases_witness :
    getReservationCount (checkoutbook sysAwaiting.catalog stu2 "LIT001" 3 3).1 stu2.memberId + 1
      = getReservationCount sysAwaiting.catalog stu2.memberId ∧
    (checkoutbook sysAwaiting.catalog stu2 "LIT001" 3 3).2.2
      = .checkedOut
          (some (getReservationCount (checkoutbook sysAwaiting.catalog stu2 "LIT001" 3 3).1
            stu2.memberId)) :=
  reservation_count_decreases sysAwaiting.catalog stu2 "LIT001"
    { lit001 with availability := "reserved", bookedBy := "STU2" } 3 3
    (by decide) (by decide) (by decide) (by decide) (by decide)

/-! ## Checkout followed by a timely return -/

/-- C17: in every state reachable from an initial state (all items available, empty
ledgers, holders empty as the holderRef invariant requires), when the member's `checkout`
of an available item succeeds with loan time `t` and is followed at once by the member's
`returnItem` at `t2 ≥ t` with `floor (hours (t2 - t) / 24)` within the loan period, the
return succeeds with fee 0 and the state is the one before the checkout. -/
theorem checkout_return_noop (s0 : LibrarySystem) (hinit : initial s0)
    (hinv : holderInv s0.catalog) (calls : List Action) (member : Nat) (m : Member)
    (isbn : String) (item : Book) (tElig t t2 : Int)
    (hm : (runAll s0 calls).memberDatabase[member]? = some m)
    (hf : findbook (runAll s0 calls).catalog isbn = some item)
    (ha : item.availability = "available")
    (hok : (step (runAll s0 calls) (.checkout member isbn tElig t)).2.isErr = false)
    (hle : t ≤ t2) (hdays : (t2 - t) / ticksPerHour / 24 ≤ loanPeriod m) :
    (step (step (runAll s0 calls) (.checkout member isbn tElig t)).1
      (.returnItem member isbn t2)).2 = .returned 0 ∧
    (step (step (runAll s0 calls) (.checkout member isbn tElig t)).1
      (.returnItem member isbn t2)).1 = runAll s0 calls := by
  have h := checkout_return_state (loanInv_runAll calls (loanInv_initial hinit))
    (holderInv_runAll calls hinv) hm hf ha hok hle hdays
  rw [h]
  exact ⟨rfl, rfl⟩

/-- C17, at the default system after STU2 has borrowed LIT002: STU1 checks out LIT001 and
returns it ten days later. -/
theorem checkout_return_noop_witness :
    (step (step (runAll sys0 [.checkout 1 "LIT002" 0 0]) (.checkout 0 "LIT001" 5 5)).1
      (.returnItem 0 "LIT001" 864000000000005)).2 = .returned 0 ∧
    (step (step (runAll sys0 [.checkout 1 "LIT002" 0 0]) (.checkout 0 "LIT001" 5 5)).1
      (.returnItem 0 "LIT001" 864000000000005)).1 = runAll sys0 [.checkout 1 "LIT002" 0 0] :=
  checkout_return_noop sys0 (by decide) (by decide) [.checkout 1 "LIT002" 0 0] 0 stu1
    "LIT001" lit001 5 5 864000000000005 (by decide) (by decide) (by decide) (by decide)
    (by decide) (by decide)

/-! ## The borrower is found in the ledgers -/

/-- C19: in every state reachable from an initial state (unique ISBNs in the catalog, all
items available, all ledgers empty), a catalog item is borrowed exactly when exactly one
ledger of the roster contains an active loan of its ISBN, and otherwise no ledger contains
one; the loans of the ISBN over the roster are as many as the ledgers that contain one. -/
theorem borrower_by_ledger_scan (s0 : LibrarySystem) (hinit : initial s0)
    (huniq : (s0.catalog.map Book.isbn).Nodup) (calls : List Action) (b : Book)
    (hb : b ∈ (runAll s0 calls).catalog) :
    (b.availability = "borrowed" ↔
      ledgerHolders b.isbn (runAll s0 calls).memberDatabase = 1) ∧
    (b.availability ≠ "borrowed" →
      ledgerHolders b.isbn (runAll s0 calls).memberDatabase = 0) ∧
    totalLoans b.isbn (runAll s0 calls).memberDatabase
      = ledgerHolders b.isbn (runAll s0 calls).memberDatabase := by
  have hloan := loanInv_runAll calls (loanInv_initial hinit) b.isbn
  have hbor := borrowedInv_runAll calls (borrowedInv_initial hinit)
  have hu : ((runAll s0 calls).catalog.map Book.isbn).Nodup := by
    rw [map_isbn_runAll]; exact huniq
  have hfind := findbook_of_mem_nodup hb hu
  have hcount := ledgerHolders_eq_totalLoans b.isbn (runAll s0 calls).memberDatabase hloan.1
  have hfwd : b.availability = "borrowed" →
      ledgerHolders b.isbn (runAll s0 calls).memberDatabase = 1 := by
    intro hav
    have := hbor b.isbn b hfind hav
    omega
  have hback : 1 ≤ ledgerHolders b.isbn (runAll s0 calls).memberDatabase →
      b.availability = "borrowed" := by
    intro h1
    obtain ⟨item, hf, hav⟩ := hloan.2 (by omega)
    rw [hfind] at hf
    cases hf
    exact hav
  refine ⟨⟨hfwd, fun h => hback (by omega)⟩, ?_, hcount.symm⟩
  intro hnb
  by_contra hne
  exact hnb (hback (by omega))

/-- C19, at the default system after STU1 has borrowed LIT001: the borrowed LIT001 is in
exactly one ledger. -/
theorem borrower_by_ledger_scan_witness :
    ((markBorrowed lit001).availability = "borrowed" ↔
      ledgerHolders (markBorrowed lit001).isbn
        (runAll sys0 [.checkout 0 "LIT001" 0 0]).memberDatabase = 1) ∧
    ((markBorrowed lit001).availability ≠ "borrowed" →
      ledgerHolders (markBorrowed lit001).isbn
        (runAll sys0 [.checkout 0 "LIT001" 0 0]).memberDatabase = 0) ∧
    totalLoans (markBorrowed lit001).isbn (runAll sys0 [.checkout 0 "LIT001" 0 0]).memberDatabase
      = ledgerHolders (markBorrowed lit001).isbn
          (runAll sys0 [.checkout 0 "LIT001" 0 0]).memberDatabase :=
  borrower_by_ledger_scan sys0 (by decide) (by decide) [.checkout 0 "LIT001" 0 0]
    (markBorrowed lit001) (by decide)

/-! ## Loan caps -/

/-- C24: from any state in which every student has at most 3 and every faculty member at
most 5 active loans, after any sequence of `checkout`, `returnItem`, `reserve` and
`payFees` calls every student still has at most 3 and every faculty member at most 5. -/
theorem loan_caps_invariant (s : LibrarySystem)
    (h : ∀ m ∈ s.memberDatabase,
      (m.kind = .CollegeStudent → m.membership.checkedOutItems.length ≤ 3) ∧
      (m.kind = .professor → m.membership.checkedOutItems.length ≤ 5))
    (calls : List Action) :
    ∀ m ∈ (runAll s calls).memberDatabase,
      (m.kind = .CollegeStudent → m.membership.checkedOutItems.length ≤ 3) ∧
      (m.kind = .professor → m.membership.checkedOutItems.length ≤ 5) :=
  withinCap_runAll calls h

/-- C24, at the default system: STU1 borrows both books of the catalog and holds 2 loans,
within the cap of 3. -/
theorem loan_caps_invariant_witness :
    stu1TwoLoans.membership.checkedOutItems.length ≤ 3 :=
  (loan_caps_invariant sys0 (by decide)
    [.checkout 0 "LIT001" 0 0, .checkout 0 "LIT002" 1 1] stu1TwoLoans (by decide)).1 (by decide)

/-! ## Frame of the lending calls -/

/-- C25: a `checkout`, `returnItem` or `reserve` call by the member at roster position
`a.member` on item id `i` keeps the catalog length, leaves every catalog position other
than the first one whose ISBN is `i` unchanged, never changes an item's id, title, creator,
publisher or year, and leaves every roster position other than the caller's unchanged;
`reserve` changes no roster entry at all and `checkout` changes nobody's `pendingFees`. -/
theorem lending_frame (s : LibrarySystem) (a : Action) (i : String)
    (ha : a.isbn? = some i) :
    (step s a).1.catalog.length = s.catalog.length ∧
    (∀ (k : Nat) (b : Book), s.catalog[k]? = some b → ¬ isFirstWithIsbn s.catalog i k →
      (step s a).1.catalog[k]? = some b) ∧
    (∀ (k : Nat) (b : Book), s.catalog[k]? = some b →
      ∃ b' : Book, (step s a).1.catalog[k]? = some b' ∧ b'.isbn = b.isbn ∧ b'.name = b.name ∧
        b'.creator = b.creator ∧ b'.company = b.company ∧
        b'.publicationYear = b.publicationYear) ∧
    (step s a).1.memberDatabase.length = s.memberDatabase.length ∧
    (∀ j : Nat, j ≠ a.member → (step s a).1.memberDatabase[j]? = s.memberDatabase[j]?) ∧
    (∀ member : Nat, a = .reserve member i → (step s a).1.memberDatabase = s.memberDatabase) ∧
    (∀ (member : Nat) (tElig now : Int), a = .checkout member i tElig now →
      ∀ (j : Nat) (m : Member), s.memberDatabase[j]? = some m →
        ∃ m' : Member, (step s a).1.memberDatabase[j]? = some m' ∧
          m'.membership.pendingFees = m.membership.pendingFees) := by
  refine ⟨?_, ?_, ?_, step_roster_length s a, step_roster_other s a, ?_, ?_⟩
  · rcases step_catalog_shape s a i ha with hc | ⟨f, _, hc⟩
    · rw [hc]
    · rw [hc]; exact length_modifyBook i f s.catalog
  · intro k b hb hnot
    rcases step_catalog_shape s a i ha with hc | ⟨f, _, hc⟩
    · rw [hc]; exact hb
    · rw [hc]
      rcases modifyBook_getElem? i f s.catalog k b hb with h | ⟨hfirst, _⟩
      · exact h
      · exact absurd hfirst hnot
  · intro k b hb
    rcases step_catalog_shape s a i ha with hc | ⟨f, hf, hc⟩
    · rw [hc]; exact ⟨b, hb, rfl, rfl, rfl, rfl, rfl⟩
    · rw [hc]
      rcases modifyBook_getElem? i f s.catalog k b hb with h | ⟨_, h⟩
      · exact ⟨b, h, rfl, rfl, rfl, rfl, rfl⟩
      · exact ⟨f b, h, hf b⟩
  · intro member hrm
    rw [hrm]
    exact reserve_roster s member i
  · intro member tElig now hco j m hm
    rw [hco]
    rcases step_member_at s (.checkout member i tElig now) j m hm with h | ⟨_, h⟩
    · exact ⟨m, h, rfl⟩
    · exact ⟨_, h, checkout_pendingFees s.catalog m i tElig now⟩

/-- C25, at the default system: STU1 checks out LIT001; LIT002 at catalog position 1 is
not the first item with that ISBN and stays as it was. -/
theorem lending_frame_witness :
    (step sys0 (.checkout 0 "LIT001" 0 0)).1.catalog[1]? = some lit002 :=
  (lending_frame sys0 (.checkout 0 "LIT001" 0 0) "LIT001" rfl).2.1 1 lit002 (by decide)
    (by decide)

/-! ## Staff catalog actions -/

/-- C23, as stated, fails: from the default system in its initial state, STU1 borrows
LIT001, staff remove LIT001 and add it again, and STU2 borrows it: two active loans
reference LIT001. -/
theorem no_double_lending_with_staff_counterexample :
    initial sys0 ∧
    totalLoans "LIT001"
      (runSystem sys0 [.lending (.checkout 0 "LIT001" 0 0), .removeItem "LIT001",
        .addItem lit001, .lending (.checkout 1 "LIT001" 1 1)]).memberDatabase = 2 := by
  decide

/-- C23, amended: from an initial state (all items available, empty ledgers), after any
sequence of `checkout`, `returnItem`, `reserve`, `payFees`, `removeItem` and `addItem`
calls in which `addItem` only adds an ISBN that no active loan references at that time or
that is already present in the catalog, every ISBN occurs in at most one active loan over
all ledgers; `removeItem` is unrestricted. -/
theorem no_double_lending_with_staff (s : LibrarySystem) (h : initial s)
    (calls : List SystemAction) (hadd : addsUnlent s calls) (isbn : String) :
    totalLoans isbn (runSystem s calls).memberDatabase ≤ 1 :=
  (loanInvStaff_runSystem calls (loanInvStaff_initial h) hadd isbn).1

/-- C23 amended, at the default system: STU1 borrows LIT001, staff remove the lent LIT001
and add a second copy of LIT002, STU2 asks for LIT001 and borrows LIT002, and STU1 tries
to return LIT001: LIT001 is on loan at most once. -/
theorem no_double_lending_with_staff_witness :
    totalLoans "LIT001"
      (runSystem sys0 [.lending (.checkout 0 "LIT001" 0 0), .removeItem "LIT001",
        .addItem lit002, .lending (.checkout 1 "LIT001" 1 1),
        .lending (.checkout 1 "LIT002" 2 2),
        .lending (.returnItem 0 "LIT001" 3)]).memberDatabase ≤ 1 :=
  no_double_lending_with_staff sys0 (by decide)
    [.lending (.checkout 0 "LIT001" 0 0), .removeItem "LIT001", .addItem lit002,
      .lending (.checkout 1 "LIT001" 1 1), .lending (.checkout 1 "LIT002" 2 2),
      .lending (.returnItem 0 "LIT001" 3)] (by decide) "LIT001"

/-! ## Catalog search -/

/-- C22: on a non-empty catalog `search` changes no state and prints, in catalog order,
the lines of exactly the items for which the query is a contiguous substring of the title
or of the creator (the no-match line when there is none); the empty query selects every
item, and a query of the same length as a title but different from it, as when only the
letter case differs, is not found in that title. -/
theorem search_spec (s : LibrarySystem) (query : String) (hne : s.catalog ≠ []) :
    (searchCatalog s query).1 = s ∧
    (searchSpec s.catalog query ≠ [] →
      (searchCatalog s query).2 = (searchSpec s.catalog query).map searchLine) ∧
    (searchSpec s.catalog query = [] →
      (searchCatalog s query).2 = ["No matching items found."]) ∧
    searchSpec s.catalog "" = s.catalog ∧
    (∀ title : String, query.length = title.length → query ≠ title →
      stdFind title query = none) := by
  have hout : (searchCatalog s query).2 =
      if (s.catalog.filter (searchMatches query)).isEmpty
      then (s.catalog.filter (searchMatches query)).map searchLine
        ++ ["No matching items found."]
      else (s.catalog.filter (searchMatches query)).map searchLine := by
    unfold searchCatalog
    rw [if_neg hne, search_fold]
    cases hE : (s.catalog.filter (searchMatches query)).isEmpty <;> simp
  refine ⟨?_, ?_, ?_, ?_, ?_⟩
  · unfold searchCatalog
    rw [if_neg hne]
    simp only
    split <;> rfl
  · intro hhit
    rw [searchSpec_eq] at hhit ⊢
    have hE : (s.catalog.filter (searchMatches query)).isEmpty = false := by
      cases hl : s.catalog.filter (searchMatches query) with
      | nil => exact absurd hl hhit
      | cons x rest => rfl
    rw [hout, hE]
    rfl
  · intro hnone
    rw [searchSpec_eq] at hnone
    rw [hout, hnone]
    rfl
  · unfold searchSpec
    rw [List.filter_eq_self]
    intro item _
    have : ("" : String).data <:+: item.name.data := List.nil_infix
    simp [this]
  · intro title hlen hneq
    cases hf : stdFind title query with
    | none => rfl
    | some pos =>
      have hsome : (findFrom query.data title.data 0).isSome = true := by
        unfold stdFind at hf
        rw [hf]; rfl
      have hinf := (findFrom_isSome query.data title.data 0).1 hsome
      have heq : query.data = title.data := hinf.eq_of_length hlen
      exact absurd (String.ext heq) hneq

/-- C22, at the default system: the query Data lists LIT002 alone, and the lower-case
query is not found in the title Data Structures. -/
theorem search_spec_witness :
    (searchCatalog sys0 "Data").2 = (searchSpec sys0.catalog "Data").map searchLine ∧
    (searchCatalog sys0 "Data").2 = ["LIT002 - Data Structures by John Smith (available)"] ∧
    stdFind "Data Structures" "data structures" = none :=
  ⟨(search_spec sys0 "Data" (by decide)).2.1 (by decide), by decide,
   (search_spec sys0 "data structures" (by decide)).2.2.2.2 "Data Structures" (by decide)
     (by decide)⟩

/-! ## Persistence of catalog records -/

/-- C21: for every item whose id, title, creator and publisher contain no comma, whose
availability is one of the labels available, borrowed, reserved, whose holder contains no
newline and whose year is an `int`, `serialize` produces the line
`id,title,creator,publisher,year,availability,holderRef` and `deserialize` of that line
yields the item itself, equal in every field. -/
theorem catalog_record_roundtrip (b : Book)
    (hisbn : ',' ∉ b.isbn.data) (hname : ',' ∉ b.name.data)
    (hcreator : ',' ∉ b.creator.data) (hcompany : ',' ∉ b.company.data)
    (hlabel : b.availability = "available" ∨ b.availability = "borrowed" ∨
      b.availability = "reserved")
    (hholder : '\n' ∉ b.bookedBy.data)
    (hyear : -2147483648 ≤ b.publicationYear ∧ b.publicationYear ≤ 2147483647) :
    b.serialize =
      ",".intercalate [b.isbn, b.name, b.creator, b.company,
        String.mk (showInt b.publicationYear), b.availability, b.bookedBy] ∧
    Book.deserialize b.serialize = some b :=
  ⟨rfl, deserialize_serialize b hisbn hname hcreator hcompany hlabel hholder hyear⟩

/-- C21, for LIT001 while it is borrowed and reserved for STU2. -/
theorem catalog_record_roundtrip_witness :
    ({ lit001 with availability := "borrowed", bookedBy := "STU2" } : Book).serialize
      = "LIT001,Advanced Programming,Jane Doe,TechPress,2022,borrowed,STU2" ∧
    Book.deserialize "LIT001,Advanced Programming,Jane Doe,TechPress,2022,borrowed,STU2"
      = some { lit001 with availability := "borrowed", bookedBy := "STU2" } :=
  ⟨by decide,
   (catalog_record_roundtrip { lit001 with availability := "borrowed", bookedBy := "STU2" }
    (by decide) (by decide) (by decide) (by decide) (by decide) (by decide) (by decide)).2⟩

end Library
